import Mathlib

/-!
Verification of the deterministic quest-validation and level-progression engine
of the Vocari RPG world generator.

The definitions below are a shallow embedding of the Python sources:

* `src/world/generators/quest_validator.py`   (class QuestValidator)
* `src/world/generators/level_progression.py` (class LevelProgressionEvaluator)
* `src/world/generators/trigger_validator.py` (validate_level_progression_requirement)
* `src/world/generators/models.py`            (TriggerCondition.to_string / from_string)

Modelling conventions:

* Python dicts become association lists (`List (key × value)`); `d.get(k)` is
  `alistGet`, `k in d` is `hasKey`, and the raising access `d[k]` is `findE`
  in the `Except String` monad (so a KeyError is an observable `.error`).
* Python `list[0]` is `listHead` in the same monad (IndexError).
* Optional / possibly-missing dict fields are `Option String`; Python
  truthiness of such a value (`if x:`) is `truthy` (`None` and `""` falsy).
* Python string interpolation of a possibly-`None` value is `pyStr`.
* Python sets are lists used up to membership.
* CPython float arithmetic inside `get_progress` (`int((a/b)*100)`) is
  modelled by exact natural division `a*100/b`; all concrete inputs used in
  theorems below make that arithmetic exact, so no rounding gap is exploited.
-/

set_option maxHeartbeats 2000000
set_option maxRecDepth 10000

/-- Single-quote character used inside validator messages. -/
def squo : String := "\x27"

/-- Python str() of an optional string: None prints as "None". -/
def pyStr : Option String → String
  | none => "None"
  | some s => s

/-- Python truthiness of an optional string (None and the empty string are falsy). -/
def truthy : Option String → Bool
  | none => false
  | some s => s ≠ ""

/-- Association-list lookup, modelling Python `d.get(k)` (first binding wins,
as in a dict where keys are unique). -/
def alistGet {κ α : Type} [DecidableEq κ] : List (κ × α) → κ → Option α
  | [], _ => none
  | (k, v) :: rest, key => if k = key then some v else alistGet rest key

/-- Python `k in d` for a dict modelled as an association list. -/
def hasKey {κ α : Type} [DecidableEq κ] (m : List (κ × α)) (k : κ) : Bool :=
  (alistGet m k).isSome

/-- Python raising dict access `d[k]`: a missing key is a KeyError. -/
def findE {κ α : Type} [DecidableEq κ] (m : List (κ × α)) (k : κ) : Except String α :=
  match alistGet m k with
  | some a => Except.ok a
  | none => Except.error "KeyError"

/-- Python raising list access `l[0]`: an empty list is an IndexError. -/
def listHead {α : Type} : List α → Except String α
  | [] => Except.error "IndexError"
  | a :: _ => Except.ok a

/-- QuestValidator.LEVEL_ORDER (quest_validator.py line 40). -/
def LEVEL_ORDER : List (String × Nat) :=
  [("A0", 0), ("A0+", 1), ("A1", 2), ("A1+", 3), ("A2", 4)]

/-- Python `self.LEVEL_ORDER.get(level, 0)`. -/
def levelOrderNum (level : String) : Nat :=
  (alistGet LEVEL_ORDER level).getD 0

/-- QuestValidator.VOCAB_RANGES (quest_validator.py lines 43-49). -/
def VOCAB_RANGES : List (String × (Nat × Nat)) :=
  [("A0", (1, 4)), ("A0+", (2, 5)), ("A1", (3, 6)), ("A1+", (3, 7)), ("A2", (4, 8))]

/-- ValidationSeverity (quest_validator.py lines 13-16). -/
inductive Severity : Type
  | error
  | warning
  | info
deriving DecidableEq, Repr

/-- ValidationIssue (quest_validator.py lines 19-30). -/
structure ValidationIssue : Type where
  severity : Severity
  quest_id : String
  task_id : Option String
  rule : String
  message : String
deriving DecidableEq, Repr

/-- A task dict from untrusted quest candidate data.  Every expected field may
be missing (`none`).  `task.get('completion_criteria', {}).get('target_id')`
is collapsed into the single optional field `target_id` (both a missing
`completion_criteria` and a missing `target_id` give Python `None`). -/
structure TaskDict : Type where
  id : Option String := none
  order : Option Int := none
  completion_type : Option String := none
  target_id : Option String := none
deriving DecidableEq, Repr

/-- A quest dict from untrusted quest candidate data.  `tasks` and
`target_vocabulary` model `quest.get(..., [])`; a missing list field is `[]`.
Vocabulary entries are opaque (only their count is used). -/
structure QuestDict : Type where
  id : Option String := none
  giver_npc_id : Option String := none
  language_level : Option String := none
  target_vocabulary : List String := []
  tasks : List TaskDict := []
deriving DecidableEq, Repr

/-- The fields of an item record that the validator reads:
`item.get('location_id')`, `item.get('acquisition_type')` and
`item.get('name', {}).get('target_language', ...)`. -/
structure ItemRec : Type where
  location_id : Option String := none
  acquisition_type : Option String := none
  name_target_language : Option String := none
deriving DecidableEq, Repr

/-- The state of a constructed QuestValidator (quest_validator.py lines 51-93):
the id sets and lookup tables built in `__init__`, plus the one mutable piece
of bookkeeping, `seen_task_patterns`.  `locations` and `npcs` are the key sets
of `self.locations` / `self.npcs` (only membership is read from them). -/
structure Validator : Type where
  locations : List String := []
  npcs : List String := []
  items : List (String × ItemRec) := []
  npc_locations : List (String × Option String) := []
  item_locations : List (String × Option String) := []
  items_at_location : List (Option String × List String) := []
  npc_levels : List (String × String) := []
  location_levels : List (String × String) := []
  location_connections : List (String × List String) := []
  starting_location : Option String := none
  seen_task_patterns : List String := []
deriving DecidableEq, Repr

/-- Python `quest.get('id', 'unknown')`. -/
def questId (q : QuestDict) : String := q.id.getD "unknown"

/-- Python `quest.get('language_level', 'A0')`. -/
def questLevel (q : QuestDict) : String := q.language_level.getD "A0"

/-- Python `self.npc_locations.get(npc_id)` (the stored value may itself be None). -/
def npcLocGet (v : Validator) (npcId : String) : Option String :=
  (alistGet v.npc_locations npcId).join

/-- Python `self.item_locations.get(item_id)`. -/
def itemLocGet (v : Validator) (itemId : String) : Option String :=
  (alistGet v.item_locations itemId).join

/-- Python `t.get('order', 0)`. -/
def taskOrder (t : TaskDict) : Int := t.order.getD 0

/-- Stable insertion of a task into a list already sorted by `taskOrder`. -/
def insertTask (t : TaskDict) : List TaskDict → List TaskDict
  | [] => [t]
  | u :: us => if taskOrder t ≤ taskOrder u then t :: u :: us else u :: insertTask t us

/-- Python `sorted(tasks, key=lambda t: t.get('order', 0))` (a stable sort). -/
def sortTasks : List TaskDict → List TaskDict
  | [] => []
  | t :: ts => insertTask t (sortTasks ts)

/-- The BFS worklist loop of `_get_reachable_locations_at_level`
(quest_validator.py lines 737-758).  `reachable` accumulates the result set,
`visited` the popped nodes, `queue` the pending worklist. -/
def bfs_loop (conns : List (String × List String)) (levels : List (String × String))
    (maxNum : Nat) (reachable visited queue : List String) : List String :=
  match queue with
  | [] => reachable
  | current :: rest =>
    if current ∈ visited then
      bfs_loop conns levels maxNum reachable visited rest
    else
      if levelOrderNum ((alistGet levels current).getD "A0") ≤ maxNum then
        bfs_loop conns levels maxNum (current :: reachable) (current :: visited)
          (rest ++ ((alistGet conns current).getD []).filter
            (fun n => n ∉ current :: visited))
      else
        bfs_loop conns levels maxNum reachable (current :: visited) rest
termination_by
  (((conns.map Prod.fst).filter (fun k => k ∉ visited)).length, queue.length)
decreasing_by
  · exact Prod.Lex.right _ (Nat.lt_succ_self _)
  · rename_i hmem _
    by_cases hk : current ∈ conns.map Prod.fst
    · apply Prod.Lex.left
      have hsub : ((conns.map Prod.fst).filter (fun k => k ∉ current :: visited)).Sublist
          ((conns.map Prod.fst).filter (fun k => k ∉ visited)) := by
        apply List.monotone_filter_right
        intro a ha
        simp only [decide_eq_true_eq, List.mem_cons, not_or] at ha ⊢
        exact ha.2
      have hin : current ∈ (conns.map Prod.fst).filter (fun k => k ∉ visited) := by
        simp only [List.mem_filter, decide_eq_true_eq]
        exact ⟨hk, hmem⟩
      have hout : current ∉ (conns.map Prod.fst).filter (fun k => k ∉ current :: visited) := by
        simp
      rcases hsub.length_le.lt_or_eq with hlt | heq
      · exact hlt
      · exact absurd (hsub.eq_of_length heq ▸ hin) hout
    · have hfeq : (conns.map Prod.fst).filter (fun k => k ∉ current :: visited)
          = (conns.map Prod.fst).filter (fun k => k ∉ visited) := by
        apply List.filter_congr
        intro a ha
        have hne : a ≠ current := fun h => hk (h ▸ ha)
        simp [hne]
      rw [hfeq]
      apply Prod.Lex.right
      have hnone : ∀ (l : List (String × List String)), current ∉ l.map Prod.fst →
          alistGet l current = none := by
        intro l
        induction l with
        | nil => intro _; rfl
        | cons p ps ih =>
          obtain ⟨k, val⟩ := p
          intro hl
          simp only [List.map_cons, List.mem_cons, not_or] at hl
          simp only [alistGet]
          rw [if_neg (fun h => hl.1 h.symm)]
          exact ih hl.2
      simp only [hnone conns hk, Option.getD_none, List.filter_nil, List.append_nil]
      exact Nat.lt_succ_self _
  · rename_i hmem _
    by_cases hk : current ∈ conns.map Prod.fst
    · apply Prod.Lex.left
      have hsub : ((conns.map Prod.fst).filter (fun k => k ∉ current :: visited)).Sublist
          ((conns.map Prod.fst).filter (fun k => k ∉ visited)) := by
        apply List.monotone_filter_right
        intro a ha
        simp only [decide_eq_true_eq, List.mem_cons, not_or] at ha ⊢
        exact ha.2
      have hin : current ∈ (conns.map Prod.fst).filter (fun k => k ∉ visited) := by
        simp only [List.mem_filter, decide_eq_true_eq]
        exact ⟨hk, hmem⟩
      have hout : current ∉ (conns.map Prod.fst).filter (fun k => k ∉ current :: visited) := by
        simp
      rcases hsub.length_le.lt_or_eq with hlt | heq
      · exact hlt
      · exact absurd (hsub.eq_of_length heq ▸ hin) hout
    · have hfeq : (conns.map Prod.fst).filter (fun k => k ∉ current :: visited)
          = (conns.map Prod.fst).filter (fun k => k ∉ visited) := by
        apply List.filter_congr
        intro a ha
        have hne : a ≠ current := fun h => hk (h ▸ ha)
        simp [hne]
      rw [hfeq]
      apply Prod.Lex.right
      exact Nat.lt_succ_self _

/-- _get_reachable_locations_at_level (quest_validator.py lines 724-758). -/
def _get_reachable_locations_at_level (v : Validator) (maxLevel : String)
    (startLocation : Option String) : List String :=
  let start := if truthy startLocation then startLocation else v.starting_location
  match start with
  | none => []
  | some s =>
    if s = "" then []
    else bfs_loop v.location_connections v.location_levels (levelOrderNum maxLevel) [] [] [s]

/-- _rule_no_auto_complete_first_task (quest_validator.py lines 186-228).
The raising accesses are `sorted_tasks[0]` (guarded by the emptiness test)
and none other; `self.npc_locations.get(...)` is non-raising. -/
def _rule_no_auto_complete_first_task (v : Validator) (q : QuestDict) :
    Except String (List ValidationIssue) := do
  if q.tasks.isEmpty || !(truthy q.giver_npc_id) then return []
  let giver := q.giver_npc_id.getD ""
  let first_task ← listHead (sortTasks q.tasks)
  let issues1 :=
    if first_task.completion_type == some "at_location" then
      match first_task.target_id with
      | some target =>
        if target ≠ "" && (some target == npcLocGet v giver) then
          [⟨Severity.error, questId q, first_task.id, "no_auto_complete_first_task",
            "First task requires being at " ++ squo ++ target ++ squo ++
            " but quest giver is already there - task auto-completes"⟩]
        else []
      | none => []
    else []
  let issues2 :=
    if first_task.completion_type == some "talked_to" then
      if first_task.target_id == some giver then
        [⟨Severity.warning, questId q, first_task.id, "no_auto_complete_first_task",
          "First task is to talk to quest giver - may auto-complete when accepting quest"⟩]
      else []
    else []
  return issues1 ++ issues2

/-- The npc_interactions list of _rule_npc_diversity (quest_validator.py lines
241-252): pairs of (task id, npc id), where gave_item / received_item tasks are
attributed to the most recently talked-to NPC when that value is truthy. -/
def npcInteractions : List TaskDict → Option String → List (Option String × Option String)
  | [], _ => []
  | t :: ts, lastTalked =>
    match t.completion_type with
    | some ct =>
      if ct = "talked_to" then
        (t.id, t.target_id) :: npcInteractions ts t.target_id
      else if ct = "gave_item" ∨ ct = "received_item" then
        if truthy lastTalked then (t.id, lastTalked) :: npcInteractions ts lastTalked
        else npcInteractions ts lastTalked
      else npcInteractions ts lastTalked
    | none => npcInteractions ts lastTalked

/-- The consecutive-repetition scan of _rule_npc_diversity (quest_validator.py
lines 257-273). -/
def consecScan (qid : String) :
    List (Option String × Option String) → Nat → Option String → List ValidationIssue
  | [], _, _ => []
  | (tid, npc) :: rest, count, lastNpc =>
    if npc == lastNpc then
      let c := count + 1
      (if c ≥ 3 then
        [⟨Severity.warning, qid, tid, "npc_diversity",
          "NPC " ++ squo ++ pyStr npc ++ squo ++ " is involved in " ++ toString c ++
          "+ consecutive interactions - lacks variety"⟩]
       else []) ++ consecScan qid rest c npc
    else consecScan qid rest 1 npc

/-- _rule_npc_diversity (quest_validator.py lines 230-286).  The raising access
is `list(unique_npcs)[0]`, guarded by the `len(unique_npcs) == 1` test. -/
def _rule_npc_diversity (v : Validator) (q : QuestDict) :
    Except String (List ValidationIssue) := do
  let interactions := npcInteractions (sortTasks q.tasks) none
  if interactions.length < 3 then return []
  let consecIssues := consecScan (questId q) interactions 1 none
  let uniques := (interactions.filterMap (fun p => if truthy p.2 then p.2 else none)).dedup
  let allSame ←
    if uniques.length = 1 ∧ interactions.length ≥ 3 then do
      let u ← listHead uniques
      pure [⟨Severity.error, questId q, none, "npc_diversity",
        "All " ++ toString interactions.length ++ " NPC interactions are with " ++
        squo ++ u ++ squo ++ " - quest is unrealistic"⟩]
    else pure []
  return consecIssues ++ allSame

/-- The per-task loop of _rule_item_location_consistency (quest_validator.py
lines 293-322); `self.items[item_id]` is the raising access, guarded by the
`item_id not in self.items` test. -/
def ilcGo (v : Validator) (qid : String) : List TaskDict → Except String (List ValidationIssue)
  | [] => Except.ok []
  | t :: ts =>
    if t.completion_type == some "has_item" then
      match t.target_id with
      | some itemId =>
        if itemId = "" then ilcGo v qid ts
        else if !(hasKey v.items itemId) then do
          let rest ← ilcGo v qid ts
          Except.ok (⟨Severity.error, qid, t.id, "item_location_consistency",
            "Item " ++ squo ++ itemId ++ squo ++ " does not exist in the game world"⟩ :: rest)
        else do
          let item ← findE v.items itemId
          let issues :=
            if (match item.location_id with
                | some l => decide (l ∉ v.locations)
                | none => true) then
              [⟨Severity.error, qid, t.id, "item_location_consistency",
                "Item " ++ squo ++ itemId ++ squo ++ " is at invalid location " ++
                squo ++ pyStr item.location_id ++ squo⟩]
            else []
          let rest ← ilcGo v qid ts
          Except.ok (issues ++ rest)
      | none => ilcGo v qid ts
    else ilcGo v qid ts

/-- _rule_item_location_consistency (quest_validator.py lines 288-323). -/
def _rule_item_location_consistency (v : Validator) (q : QuestDict) :
    Except String (List ValidationIssue) :=
  ilcGo v (questId q) q.tasks

/-- The starting implied location of _rule_item_at_correct_location
(quest_validator.py lines 334-340): the quest giver resolved through
`self.npc_locations[giver]` (a raising access guarded by the membership test). -/
def giverImplied (v : Validator) (q : QuestDict) : Except String (Option String) :=
  match q.giver_npc_id with
  | some g => if g ≠ "" ∧ hasKey v.npc_locations g then findE v.npc_locations g else pure none
  | none => pure none

/-- The per-task loop of _rule_item_at_correct_location (quest_validator.py
lines 342-376), threading the implied current location. -/
def iaclGo (v : Validator) (qid : String) (cur : Option String) :
    List TaskDict → Except String (List ValidationIssue)
  | [] => Except.ok []
  | t :: ts =>
    match t.completion_type with
    | some ct =>
      if ct = "at_location" then
        iaclGo v qid t.target_id ts
      else if ct = "has_item" then
        match t.target_id with
        | some itemId =>
          if itemId = "" ∨ !(hasKey v.items itemId) then iaclGo v qid cur ts
          else do
            let item ← findE v.items itemId
            let issues :=
              if truthy cur ∧ truthy item.location_id ∧ item.location_id ≠ cur then
                [⟨Severity.error, qid, t.id, "item_at_correct_location",
                  "Quest implies getting " ++ squo ++ (item.name_target_language.getD itemId) ++
                  squo ++ " at " ++ squo ++ pyStr cur ++ squo ++
                  " but item is actually at " ++ squo ++ pyStr item.location_id ++ squo⟩]
              else []
            let rest ← iaclGo v qid cur ts
            Except.ok (issues ++ rest)
        | none => iaclGo v qid cur ts
      else if ct = "talked_to" then
        match t.target_id with
        | some npcId =>
          if npcId ≠ "" ∧ hasKey v.npc_locations npcId then do
            let npcLoc ← findE v.npc_locations npcId
            if truthy npcLoc then iaclGo v qid npcLoc ts else iaclGo v qid cur ts
          else iaclGo v qid cur ts
        | none => iaclGo v qid cur ts
      else iaclGo v qid cur ts
    | none => iaclGo v qid cur ts

/-- _rule_item_at_correct_location (quest_validator.py lines 325-377). -/
def _rule_item_at_correct_location (v : Validator) (q : QuestDict) :
    Except String (List ValidationIssue) := do
  let cur0 ← giverImplied v q
  iaclGo v (questId q) cur0 (sortTasks q.tasks)

/-- The per-task loop of _rule_logical_item_flow (quest_validator.py lines
390-427), threading the set of items obtained so far; `self.items[target_id]`
is the raising access, guarded by the membership test. -/
def flowGo (v : Validator) (qid : String) (obtained : List String) :
    List TaskDict → Except String (List ValidationIssue)
  | [] => Except.ok []
  | t :: ts =>
    match t.completion_type with
    | some ct =>
      if ct = "has_item" ∨ ct = "received_item" then
        match t.target_id with
        | some x => if x ≠ "" then flowGo v qid (x :: obtained) ts else flowGo v qid obtained ts
        | none => flowGo v qid obtained ts
      else if ct = "gave_item" then
        match t.target_id with
        | some x =>
          if x ≠ "" ∧ x ∉ obtained then
            if hasKey v.items x then do
              let item ← findE v.items x
              let issue :=
                if (match item.acquisition_type with
                    | some a => decide (a = "gather" ∨ a = "purchase" ∨ a = "find")
                    | none => false) then
                  ⟨Severity.warning, qid, t.id, "logical_item_flow",
                    "Task requires giving " ++ squo ++ x ++ squo ++
                    " but no prior task explicitly obtains it"⟩
                else
                  ⟨Severity.error, qid, t.id, "logical_item_flow",
                    "Task requires giving " ++ squo ++ x ++ squo ++
                    " which cannot be obtained (no prior task and not gatherable)"⟩
              let rest ← flowGo v qid obtained ts
              Except.ok (issue :: rest)
            else do
              let rest ← flowGo v qid obtained ts
              Except.ok (⟨Severity.error, qid, t.id, "logical_item_flow",
                "Task requires giving non-existent item " ++ squo ++ x ++ squo⟩ :: rest)
          else flowGo v qid obtained ts
        | none => flowGo v qid obtained ts
      else flowGo v qid obtained ts
    | none => flowGo v qid obtained ts

/-- _rule_logical_item_flow (quest_validator.py lines 379-429). -/
def _rule_logical_item_flow (v : Validator) (q : QuestDict) :
    Except String (List ValidationIssue) :=
  flowGo v (questId q) [] (sortTasks q.tasks)

/-- The overwrite-scan of the inner loops of _rule_no_immediate_item_return
(quest_validator.py lines 452-456 and 463-466): the final value assigned to
the tracking variable after scanning every talked_to task whose order is
below (strictly, for the receive scan) or at (for the give scan) `o`. -/
def lastTalkedScan (tasks : List TaskDict) (o : Int) (strict : Bool)
    (init : Option String) : Option String :=
  tasks.foldl
    (fun acc p =>
      if (if strict then taskOrder p < o else taskOrder p ≤ o)
          ∧ p.completion_type == some "talked_to" then p.target_id
      else acc)
    init

/-- The per-task loop of _rule_no_immediate_item_return (quest_validator.py
lines 444-475), threading the last received item, its giver and its order. -/
def niirGo (qid : String) (allTasks : List TaskDict) :
    List TaskDict → Option String → Option String → Int → List ValidationIssue
  | [], _, _, _ => []
  | t :: ts, lastItem, lastFrom, lastOrder =>
    let o := taskOrder t
    match t.completion_type with
    | some ct =>
      if ct = "received_item" then
        niirGo qid allTasks ts t.target_id (lastTalkedScan allTasks o true lastFrom) o
      else if ct = "gave_item" then
        (if t.target_id == lastItem ∧ o = lastOrder + 1 then
          (if lastTalkedScan allTasks o false none == lastFrom then
            [⟨Severity.error, qid, t.id, "no_immediate_item_return",
              "Received item " ++ squo ++ pyStr t.target_id ++ squo ++
              " and immediately returning it to same NPC - illogical"⟩]
           else [])
         else []) ++ niirGo qid allTasks ts lastItem lastFrom lastOrder
      else niirGo qid allTasks ts lastItem lastFrom lastOrder
    | none => niirGo qid allTasks ts lastItem lastFrom lastOrder

/-- _rule_no_immediate_item_return (quest_validator.py lines 431-477). -/
def _rule_no_immediate_item_return (v : Validator) (q : QuestDict) : List ValidationIssue :=
  niirGo (questId q) (sortTasks q.tasks) (sortTasks q.tasks) none none (-1)

/-- The per-task check of _rule_valid_references (quest_validator.py lines
486-521). -/
def vrefIssue (v : Validator) (qid : String) (t : TaskDict) : List ValidationIssue :=
  match t.target_id with
  | some tid =>
    if tid = "" then []
    else
      match t.completion_type with
      | some ct =>
        if ct = "at_location" then
          if tid ∈ v.locations then []
          else [⟨Severity.error, qid, t.id, "valid_references",
            "Location " ++ squo ++ tid ++ squo ++ " does not exist"⟩]
        else if ct = "talked_to" then
          if tid ∈ v.npcs then []
          else [⟨Severity.error, qid, t.id, "valid_references",
            "NPC " ++ squo ++ tid ++ squo ++ " does not exist"⟩]
        else if ct = "has_item" ∨ ct = "gave_item" ∨ ct = "received_item" then
          if hasKey v.items tid then []
          else [⟨Severity.error, qid, t.id, "valid_references",
            "Item " ++ squo ++ tid ++ squo ++ " does not exist"⟩]
        else []
      | none => []
  | none => []

/-- _rule_valid_references (quest_validator.py lines 479-523). -/
def _rule_valid_references (v : Validator) (q : QuestDict) : List ValidationIssue :=
  (q.tasks.map (vrefIssue v (questId q))).flatten

/-- _rule_valid_quest_giver (quest_validator.py lines 525-542). -/
def _rule_valid_quest_giver (v : Validator) (q : QuestDict) : List ValidationIssue :=
  match q.giver_npc_id with
  | some g =>
    if g ≠ "" ∧ g ∉ v.npcs then
      [⟨Severity.error, questId q, none, "valid_quest_giver",
        "Quest giver NPC " ++ squo ++ g ++ squo ++ " does not exist"⟩]
    else []
  | none => []

/-- The per-task loop of _rule_logical_task_order (quest_validator.py lines
565-599), threading the visited-locations set.  (The talked_to_npcs set built
by the Python code is never read, so it is not threaded.)
`self.items[target_id]` is the raising access, guarded by the membership test. -/
def ltoGo (v : Validator) (qid : String) (visited : List String) :
    List TaskDict → Except String (List ValidationIssue)
  | [] => Except.ok []
  | t :: ts =>
    match t.completion_type with
    | some ct =>
      if ct = "at_location" then
        match t.target_id with
        | some tid => if tid ≠ "" then ltoGo v qid (tid :: visited) ts else ltoGo v qid visited ts
        | none => ltoGo v qid visited ts
      else if ct = "talked_to" then
        match t.target_id with
        | some tid =>
          if tid ≠ "" then do
            let npcLoc := npcLocGet v tid
            let issues :=
              if truthy npcLoc && (match npcLoc with
                  | some l => decide (l ∉ visited)
                  | none => false) then
                [⟨Severity.info, qid, t.id, "logical_task_order",
                  "Talk to NPC at " ++ squo ++ pyStr npcLoc ++ squo ++
                  " but no prior task to go there"⟩]
              else []
            let rest ← ltoGo v qid visited ts
            Except.ok (issues ++ rest)
          else ltoGo v qid visited ts
        | none => ltoGo v qid visited ts
      else if ct = "has_item" then
        match t.target_id with
        | some tid =>
          if tid ≠ "" ∧ hasKey v.items tid then do
            let item ← findE v.items tid
            let issues :=
              if truthy item.location_id && (match item.location_id with
                  | some l => decide (l ∉ visited)
                  | none => false) then
                [⟨Severity.info, qid, t.id, "logical_task_order",
                  "Get item from " ++ squo ++ pyStr item.location_id ++ squo ++
                  " but no prior task to go there"⟩]
              else []
            let rest ← ltoGo v qid visited ts
            Except.ok (issues ++ rest)
          else ltoGo v qid visited ts
        | none => ltoGo v qid visited ts
      else ltoGo v qid visited ts
    | none => ltoGo v qid visited ts

/-- _rule_logical_task_order (quest_validator.py lines 544-601);
`self.npc_locations[giver]` in the setup is the raising access, guarded by
the membership test. -/
def _rule_logical_task_order (v : Validator) (q : QuestDict) :
    Except String (List ValidationIssue) := do
  let visited0 ←
    match q.giver_npc_id with
    | some g =>
      if g ≠ "" ∧ hasKey v.npc_locations g then do
        let giverLoc ← findE v.npc_locations g
        pure (match giverLoc with
          | some l => if l ≠ "" then [l] else []
          | none => [])
      else pure []
    | none => pure ([] : List String)
  ltoGo v (questId q) visited0 (sortTasks q.tasks)

/-- The per-task checks of _rule_language_level_consistency (quest_validator.py
lines 628-654); `self.location_levels[target_id]` and
`self.npc_levels[target_id]` are raising accesses guarded by membership tests. -/
def llcGo (v : Validator) (qid qlevel : String) (qnum : Nat) :
    List TaskDict → Except String (List ValidationIssue)
  | [] => Except.ok []
  | t :: ts =>
    match t.completion_type, t.target_id with
    | some ct, some tid =>
      if ct = "at_location" ∧ tid ≠ "" ∧ hasKey v.location_levels tid then do
        let locLevel ← findE v.location_levels tid
        let issues :=
          if levelOrderNum locLevel > qnum + 1 then
            [⟨Severity.warning, qid, t.id, "language_level_consistency",
              "Quest is level " ++ qlevel ++ " but requires visiting " ++ locLevel ++
              " location " ++ squo ++ tid ++ squo⟩]
          else []
        let rest ← llcGo v qid qlevel qnum ts
        Except.ok (issues ++ rest)
      else if ct = "talked_to" ∧ tid ≠ "" ∧ hasKey v.npc_levels tid then do
        let npcLevel ← findE v.npc_levels tid
        let issues :=
          if levelOrderNum npcLevel > qnum + 1 then
            [⟨Severity.warning, qid, t.id, "language_level_consistency",
              "Quest is level " ++ qlevel ++ " but requires talking to " ++ npcLevel ++
              " NPC " ++ squo ++ tid ++ squo⟩]
          else []
        let rest ← llcGo v qid qlevel qnum ts
        Except.ok (issues ++ rest)
      else llcGo v qid qlevel qnum ts
    | _, _ => llcGo v qid qlevel qnum ts

/-- _rule_language_level_consistency (quest_validator.py lines 603-656);
`self.npc_levels[giver_id]` in the giver check is the raising access, guarded
by the membership test. -/
def _rule_language_level_consistency (v : Validator) (q : QuestDict) :
    Except String (List ValidationIssue) := do
  let qlevel := questLevel q
  let qnum := levelOrderNum qlevel
  let giverIssues ←
    match q.giver_npc_id with
    | some g =>
      if g ≠ "" ∧ hasKey v.npc_levels g then do
        let giverLevel ← findE v.npc_levels g
        pure (if levelOrderNum giverLevel > qnum + 1 then
          [⟨Severity.warning, questId q, none, "language_level_consistency",
            "Quest is level " ++ qlevel ++ " but quest giver NPC is level " ++ giverLevel⟩]
        else [])
      else pure []
    | none => pure ([] : List ValidationIssue)
  let taskIssues ← llcGo v (questId q) qlevel qnum q.tasks
  pure (giverIssues ++ taskIssues)

/-- _rule_vocabulary_progression (quest_validator.py lines 658-692). -/
def _rule_vocabulary_progression (v : Validator) (q : QuestDict) : List ValidationIssue :=
  let qlevel := questLevel q
  let vocabCount := q.target_vocabulary.length
  let range := (alistGet VOCAB_RANGES qlevel).getD (1, 10)
  if vocabCount > 0 then
    if vocabCount < range.1 then
      [⟨Severity.info, questId q, none, "vocabulary_progression",
        "Quest has " ++ toString vocabCount ++ " vocabulary words, expected at least " ++
        toString range.1 ++ " for level " ++ qlevel⟩]
    else if vocabCount > range.2 then
      [⟨Severity.warning, questId q, none, "vocabulary_progression",
        "Quest has " ++ toString vocabCount ++ " vocabulary words, expected at most " ++
        toString range.2 ++ " for level " ++ qlevel⟩]
    else []
  else []

/-- The task pattern signature of _rule_no_duplicate_structures
(quest_validator.py lines 703-709). -/
def taskPattern (q : QuestDict) : String :=
  String.intercalate "-" ((sortTasks q.tasks).map (fun t => t.completion_type.getD "unknown"))

/-- _rule_no_duplicate_structures (quest_validator.py lines 694-722).  This is
the one rule that mutates validator state (`self.seen_task_patterns`), so the
updated validator is returned alongside the issues. -/
def _rule_no_duplicate_structures (v : Validator) (q : QuestDict) :
    List ValidationIssue × Validator :=
  let pattern := taskPattern q
  if pattern ∈ v.seen_task_patterns then
    ([⟨Severity.info, questId q, none, "no_duplicate_structures",
      "Quest has same task pattern as another quest: " ++ pattern⟩], v)
  else ([], { v with seen_task_patterns := pattern :: v.seen_task_patterns })

/-- The per-task check of _rule_location_path_accessibility (quest_validator.py
lines 790-825). -/
def lpaTaskIssue (v : Validator) (qid qlevel : String) (reachable : List String)
    (t : TaskDict) : List ValidationIssue :=
  match t.completion_type, t.target_id with
  | some ct, some tid =>
    if ct = "at_location" ∧ tid ≠ "" then
      if tid ∉ reachable then
        [⟨Severity.error, qid, t.id, "location_path_accessibility",
          "Location " ++ squo ++ tid ++ squo ++ " (level " ++
          ((alistGet v.location_levels tid).getD "unknown") ++ ") is not reachable via " ++
          qlevel ++ "-accessible paths"⟩]
      else []
    else if ct = "talked_to" ∧ tid ≠ "" then
      match npcLocGet v tid with
      | some l =>
        if l ≠ "" ∧ l ∉ reachable then
          [⟨Severity.error, qid, t.id, "location_path_accessibility",
            "NPC " ++ squo ++ tid ++ squo ++ " at location " ++ squo ++ l ++ squo ++
            " is not reachable via " ++ qlevel ++ "-accessible paths"⟩]
        else []
      | none => []
    else if ct = "has_item" ∧ tid ≠ "" then
      match itemLocGet v tid with
      | some l =>
        if l ≠ "" ∧ l ∉ reachable then
          [⟨Severity.error, qid, t.id, "location_path_accessibility",
            "Item " ++ squo ++ tid ++ squo ++ " at location " ++ squo ++ l ++ squo ++
            " is not reachable via " ++ qlevel ++ "-accessible paths"⟩]
        else []
      | none => []
    else []
  | _, _ => []

/-- _rule_location_path_accessibility (quest_validator.py lines 760-827);
`self.npc_locations[giver_id]` in the giver check is the raising access,
guarded by the membership test. -/
def _rule_location_path_accessibility (v : Validator) (q : QuestDict) :
    Except String (List ValidationIssue) := do
  let qid := questId q
  let qlevel := questLevel q
  let reachable := _get_reachable_locations_at_level v qlevel none
  let giverIssues ←
    match q.giver_npc_id with
    | some g =>
      if g ≠ "" ∧ hasKey v.npc_locations g then do
        let gloc ← findE v.npc_locations g
        pure (match gloc with
          | some l =>
            if l ≠ "" ∧ l ∉ reachable then
              [⟨Severity.error, qid, none, "location_path_accessibility",
                "Quest giver at " ++ squo ++ l ++ squo ++ " is not reachable via " ++
                qlevel ++ "-accessible paths from starting location"⟩]
            else []
          | none => [])
      else pure []
    | none => pure ([] : List ValidationIssue)
  pure (giverIssues ++ (q.tasks.map (lpaTaskIssue v qid qlevel reachable)).flatten)

/-- The per-task loop of _rule_item_actually_at_location (quest_validator.py
lines 844-893); `self.items[target_id]` is the raising access, guarded by the
membership test. -/
def ialGo (v : Validator) (qid : String) : List TaskDict → Except String (List ValidationIssue)
  | [] => Except.ok []
  | t :: ts =>
    let ct := t.completion_type.getD ""
    if ct = "has_item" ∨ ct = "gave_item" ∨ ct = "received_item" then
      match t.target_id with
      | some tid =>
        if tid = "" then ialGo v qid ts
        else if !(hasKey v.items tid) then ialGo v qid ts
        else do
          let item ← findE v.items tid
          if !(truthy item.location_id) then do
            let rest ← ialGo v qid ts
            Except.ok (⟨Severity.error, qid, t.id, "item_actually_at_location",
              "Item " ++ squo ++ tid ++ squo ++
              " has no location_id - it cannot be obtained"⟩ :: rest)
          else if (match item.location_id with
              | some l => decide (l ∉ v.locations)
              | none => true) then do
            let rest ← ialGo v qid ts
            Except.ok (⟨Severity.error, qid, t.id, "item_actually_at_location",
              "Item " ++ squo ++ tid ++ squo ++ " is placed at non-existent location " ++
              squo ++ pyStr item.location_id ++ squo⟩ :: rest)
          else
            let itemsAtLoc := (alistGet v.items_at_location item.location_id).getD []
            if tid ∉ itemsAtLoc then do
              let rest ← ialGo v qid ts
              Except.ok (⟨Severity.warning, qid, t.id, "item_actually_at_location",
                "Item " ++ squo ++ tid ++ squo ++ " claims to be at " ++ squo ++
                pyStr item.location_id ++ squo ++
                " but is not in items_at_location index"⟩ :: rest)
            else ialGo v qid ts
      | none => ialGo v qid ts
    else ialGo v qid ts

/-- _rule_item_actually_at_location (quest_validator.py lines 829-894). -/
def _rule_item_actually_at_location (v : Validator) (q : QuestDict) :
    Except String (List ValidationIssue) :=
  ialGo v (questId q) q.tasks

/-- validate_quest (quest_validator.py lines 138-184): run all thirteen rules
in order and concatenate their issues.  The returned validator reflects the
one state mutation (rule `no_duplicate_structures` recording the task
pattern). -/
def validate_quest (v : Validator) (q : QuestDict) :
    Except String (List ValidationIssue × Validator) := do
  let i1 ← _rule_no_auto_complete_first_task v q
  let i2 ← _rule_npc_diversity v q
  let i3 ← _rule_item_location_consistency v q
  let i3b ← _rule_item_at_correct_location v q
  let i4 ← _rule_logical_item_flow v q
  let i5 := _rule_no_immediate_item_return v q
  let i6 := _rule_valid_references v q
  let i7 := _rule_valid_quest_giver v q
  let i8 ← _rule_logical_task_order v q
  let i9 ← _rule_language_level_consistency v q
  let i10 := _rule_vocabulary_progression v q
  let (i11, v2) := _rule_no_duplicate_structures v q
  let i12 ← _rule_location_path_accessibility v2 q
  let i13 ← _rule_item_actually_at_location v2 q
  pure (i1 ++ i2 ++ i3 ++ i3b ++ i4 ++ i5 ++ i6 ++ i7 ++ i8 ++ i9 ++ i10 ++ i11 ++ i12 ++ i13, v2)

/-- reset_pattern_tracking (quest_validator.py lines 896-898). -/
def reset_pattern_tracking (v : Validator) : Validator :=
  { v with seen_task_patterns := [] }

/-- LanguageLevel (models.py lines 12-17). -/
inductive LanguageLevel : Type
  | A0
  | A0plus
  | A1
  | A1plus
  | A2
deriving DecidableEq, Repr

/-- The .value string of a LanguageLevel enum member. -/
def LanguageLevel.value : LanguageLevel → String
  | .A0 => "A0"
  | .A0plus => "A0+"
  | .A1 => "A1"
  | .A1plus => "A1+"
  | .A2 => "A2"

/-- Python `level_order.index(lvl.value)` for `level_order = ["A0","A0+","A1","A1+","A2"]`
(trigger_validator.py lines 290-293).  For enum-typed levels the lookup always
succeeds, so the ValueError branch of the Python code is unreachable here. -/
def levelIdx : LanguageLevel → Nat
  | .A0 => 0
  | .A0plus => 1
  | .A1 => 2
  | .A1plus => 3
  | .A2 => 4

/-- SkillThreshold (models.py lines 428-431). -/
structure SkillThreshold : Type where
  skill_id : String
  minimum_level : Nat
deriving DecidableEq, Repr

/-- LevelProgressionRequirement (models.py lines 434-479). -/
structure LevelProgressionRequirement : Type where
  from_level : LanguageLevel
  to_level : LanguageLevel
  minimum_total_skill_points : Nat
  required_skill_thresholds : List SkillThreshold := []
  flexible_skill_pool : List String := []
  flexible_skill_count : Nat := 0
  flexible_threshold : Nat := 0
  description : String := ""
deriving DecidableEq, Repr

/-- LevelProgressionConfig (models.py lines 482-495). -/
structure LevelProgressionConfig : Type where
  requirements : List LevelProgressionRequirement
  total_skill_point_cap : Nat := 1000
deriving DecidableEq, Repr

/-- LevelProgressionConfig.get_requirement (models.py lines 490-495): the first
requirement whose from_level matches. -/
def LevelProgressionConfig.get_requirement (cfg : LevelProgressionConfig)
    (fromLevel : LanguageLevel) : Option LevelProgressionRequirement :=
  cfg.requirements.find? (fun r => r.from_level = fromLevel)

/-- Python `skill_levels.get(skill_id, 0)` for the skill-level dict. -/
def skillGet (skillLevels : List (String × Nat)) (skillId : String) : Nat :=
  (alistGet skillLevels skillId).getD 0

/-- Python `sum(skill_levels.values())`. -/
def skillSum (skillLevels : List (String × Nat)) : Nat :=
  (skillLevels.map Prod.snd).sum

/-- LevelProgressionEvaluator.can_advance (level_progression.py lines 257-308).
Returns the (can_advance, reasons) pair. -/
def can_advance (cfg : LevelProgressionConfig) (currentLevel : LanguageLevel)
    (skillLevels : List (String × Nat)) : Bool × List String :=
  match cfg.get_requirement currentLevel with
  | none => (false, ["No progression available from this level"])
  | some req =>
    let totalPoints := skillSum skillLevels
    let r1 :=
      if totalPoints < req.minimum_total_skill_points then
        ["Need " ++ toString req.minimum_total_skill_points ++
         " total skill points, have " ++ toString totalPoints]
      else []
    let r2 := req.required_skill_thresholds.filterMap (fun th =>
      let current := skillGet skillLevels th.skill_id
      if current < th.minimum_level then
        some ("Skill " ++ squo ++ th.skill_id ++ squo ++ " needs level " ++
          toString th.minimum_level ++ ", have " ++ toString current)
      else none)
    let r3 :=
      if req.flexible_skill_count > 0 then
        let qualifying := (req.flexible_skill_pool.filter
          (fun sid => skillGet skillLevels sid ≥ req.flexible_threshold)).length
        if qualifying < req.flexible_skill_count then
          ["Need " ++ toString req.flexible_skill_count ++ " flexible skills at level " ++
           toString req.flexible_threshold ++ ", have " ++ toString qualifying]
        else []
      else []
    let reasons := r1 ++ r2 ++ r3
    (reasons.isEmpty, reasons)

/-- One entry of the core_progress details list built by get_progress
(level_progression.py lines 333-344). -/
structure CoreDetail : Type where
  skill_id : String
  current : Nat
  required : Nat
  progress_percent : Nat
  met : Bool
deriving DecidableEq, Repr

/-- The numeric content of the dict returned by get_progress
(level_progression.py lines 361-382). -/
structure ProgressResult : Type where
  from_level : String
  to_level : String
  total_points_current : Nat
  total_points_required : Nat
  points_pct : Nat
  core_met : Nat
  core_required : Nat
  core_pct : Nat
  core_details : List CoreDetail
  flexible_qualifying : Nat
  flexible_required : Nat
  flexible_threshold : Nat
  flex_pct : Nat
  overall_pct : Nat
deriving DecidableEq, Repr

/-- LevelProgressionEvaluator.get_progress (level_progression.py lines 310-382).
Returns none for the `{"error": ...}` dict (no requirement configured).
CPython computes the percentages as `int((a / b) * 100)` on floats; that is
modelled here by the exact natural floor division `a * 100 / b`. -/
def get_progress (cfg : LevelProgressionConfig) (currentLevel : LanguageLevel)
    (skillLevels : List (String × Nat)) : Option ProgressResult :=
  match cfg.get_requirement currentLevel with
  | none => none
  | some req =>
    let totalPoints := skillSum skillLevels
    let coreDetails := req.required_skill_thresholds.map (fun th =>
      let current := skillGet skillLevels th.skill_id
      { skill_id := th.skill_id
        current := current
        required := th.minimum_level
        progress_percent :=
          if th.minimum_level > 0 then min 100 (current * 100 / th.minimum_level) else 100
        met := current ≥ th.minimum_level : CoreDetail })
    let coreMet := (req.required_skill_thresholds.filter
      (fun th => skillGet skillLevels th.skill_id ≥ th.minimum_level)).length
    let flexibleQualifying := (req.flexible_skill_pool.filter
      (fun sid => skillGet skillLevels sid ≥ req.flexible_threshold)).length
    let pointsPct :=
      if req.minimum_total_skill_points > 0 then
        min 100 (totalPoints * 100 / req.minimum_total_skill_points)
      else 100
    let corePct :=
      if req.required_skill_thresholds.isEmpty then 100
      else coreMet * 100 / req.required_skill_thresholds.length
    let flexPct :=
      if req.flexible_skill_count > 0 then
        flexibleQualifying * 100 / req.flexible_skill_count
      else 100
    some
      { from_level := currentLevel.value
        to_level := req.to_level.value
        total_points_current := totalPoints
        total_points_required := req.minimum_total_skill_points
        points_pct := pointsPct
        core_met := coreMet
        core_required := req.required_skill_thresholds.length
        core_pct := corePct
        core_details := coreDetails
        flexible_qualifying := flexibleQualifying
        flexible_required := req.flexible_skill_count
        flexible_threshold := req.flexible_threshold
        flex_pct := flexPct
        overall_pct := (pointsPct + corePct + flexPct) / 3 }

/-- TriggerValidationError (models.py lines 502-506). -/
structure TriggerValidationError : Type where
  field : String
  message : String
  value : Option String := none
deriving DecidableEq, Repr

/-- TriggerValidationResult (models.py lines 509-514). -/
structure TriggerValidationResult : Type where
  is_valid : Bool
  errors : List TriggerValidationError := []
  warnings : List String := []
deriving DecidableEq, Repr

/-- validate_level_progression_requirement (trigger_validator.py lines 267-360),
applied to an already-constructed LevelProgressionRequirement.  `validSkillIds`
models `self.valid_skill_ids` (None skips reference validation).  The
`minimum_total_skill_points < 0` and `minimum_level < 0` branches of the Python
code are vacuous here because those fields are non-negative by construction
(pydantic `ge=0`), mirrored by the `Nat` field types.  Enum levels are
interpolated through `.value`. -/
def validate_level_progression_requirement (validSkillIds : Option (List String))
    (req : LevelProgressionRequirement) : TriggerValidationResult :=
  let path := "level_requirement"
  let seqErrs :=
    if levelIdx req.to_level ≠ levelIdx req.from_level + 1 then
      [{ field := path ++ ".to_level"
         message := "Level progression must be sequential: " ++ req.from_level.value ++
           " -> " ++ req.to_level.value ++ " is not valid"
         value := some (req.from_level.value ++ " -> " ++ req.to_level.value) :
         TriggerValidationError }]
    else []
  let thresholdErrs := (req.required_skill_thresholds.enum.map (fun p =>
    let i := p.1
    let th := p.2
    (match validSkillIds with
     | some ids =>
       if th.skill_id ∉ ids then
         [{ field := path ++ ".required_skill_thresholds[" ++ toString i ++ "].skill_id"
            message := "Skill ID " ++ squo ++ th.skill_id ++ squo ++ " does not exist"
            value := some th.skill_id : TriggerValidationError }]
       else []
     | none => []) ++
    (if th.minimum_level > 100 then
       [{ field := path ++ ".required_skill_thresholds[" ++ toString i ++ "].minimum_level"
          message := "Minimum level must be between 0 and 100"
          value := some (toString th.minimum_level) : TriggerValidationError }]
     else []))).flatten
  let flexErrs :=
    if req.flexible_skill_count > 0 then
      (if req.flexible_skill_pool.isEmpty then
        [{ field := path ++ ".flexible_skill_pool"
           message := "flexible_skill_pool cannot be empty when flexible_skill_count > 0"
           value := none : TriggerValidationError }]
       else []) ++
      (if req.flexible_skill_count > req.flexible_skill_pool.length then
        [{ field := path ++ ".flexible_skill_count"
           message := "flexible_skill_count cannot exceed size of flexible_skill_pool"
           value := some (toString req.flexible_skill_count) : TriggerValidationError }]
       else [])
    else []
  let flexWarnings :=
    if req.flexible_skill_count > 0 then
      match validSkillIds with
      | some ids => req.flexible_skill_pool.filterMap (fun sid =>
          if sid ∉ ids then
            some (path ++ ".flexible_skill_pool: Skill ID " ++ squo ++ sid ++ squo ++
              " does not exist")
          else none)
      | none => []
    else []
  let errors := seqErrs ++ thresholdErrs ++ flexErrs
  { is_valid := errors.isEmpty
    errors := errors
    warnings := flexWarnings }

/-- TriggerType (models.py lines 243-264). -/
inductive TriggerType : Type
  | vocabUsedCorrectly
  | vocabRecognized
  | grammarUsedCorrectly
  | grammarPatternProduced
  | skillDemonstrated
  | questCompleted
  | npcInteraction
  | locationVisited
  | itemAcquired
  | skillLevelReached
  | totalSkillPoints
deriving DecidableEq, Repr

/-- The .value string of a TriggerType enum member. -/
def TriggerType.value : TriggerType → String
  | .vocabUsedCorrectly => "vocab_used_correctly"
  | .vocabRecognized => "vocab_recognized"
  | .grammarUsedCorrectly => "grammar_used_correctly"
  | .grammarPatternProduced => "grammar_pattern_produced"
  | .skillDemonstrated => "skill_demonstrated"
  | .questCompleted => "quest_completed"
  | .npcInteraction => "npc_interaction"
  | .locationVisited => "location_visited"
  | .itemAcquired => "item_acquired"
  | .skillLevelReached => "skill_level_reached"
  | .totalSkillPoints => "total_skill_points"

/-- Python `TriggerType(s)`: look an enum member up by value (raises, i.e.
none, when no member matches). -/
def parseTriggerTypeStr (s : String) : Option TriggerType :=
  if s = "vocab_used_correctly" then some .vocabUsedCorrectly
  else if s = "vocab_recognized" then some .vocabRecognized
  else if s = "grammar_used_correctly" then some .grammarUsedCorrectly
  else if s = "grammar_pattern_produced" then some .grammarPatternProduced
  else if s = "skill_demonstrated" then some .skillDemonstrated
  else if s = "quest_completed" then some .questCompleted
  else if s = "npc_interaction" then some .npcInteraction
  else if s = "location_visited" then some .locationVisited
  else if s = "item_acquired" then some .itemAcquired
  else if s = "skill_level_reached" then some .skillLevelReached
  else if s = "total_skill_points" then some .totalSkillPoints
  else none

/-- TriggerOperator (models.py lines 267-274). -/
inductive TriggerOperator : Type
  | greaterThan
  | greaterEqual
  | equal
  | lessEqual
  | lessThan
  | notEqual
deriving DecidableEq, Repr

/-- The .value string of a TriggerOperator enum member. -/
def TriggerOperator.value : TriggerOperator → String
  | .greaterThan => ">"
  | .greaterEqual => ">="
  | .equal => "=="
  | .lessEqual => "<="
  | .lessThan => "<"
  | .notEqual => "!="

/-- Python `TriggerOperator(s)`. -/
def parseOperatorStr (s : String) : Option TriggerOperator :=
  if s = ">" then some .greaterThan
  else if s = ">=" then some .greaterEqual
  else if s = "==" then some .equal
  else if s = "<=" then some .lessEqual
  else if s = "<" then some .lessThan
  else if s = "!=" then some .notEqual
  else none

/-- TriggerCondition (models.py lines 277-311).  The threshold is a
non-negative integer (pydantic `ge=0`). -/
structure TriggerCondition : Type where
  trigger_type : TriggerType
  target_id : String
  operator : TriggerOperator
  threshold : Nat
deriving DecidableEq, Repr

/-- Python regex `\s` (whitespace class, ASCII). -/
def isPySpace (c : Char) : Bool :=
  c = ' ' || c = '\t' || c = '\n' || c = '\r' || c = '\x0b' || c = '\x0c'

/-- Python regex `\w` (word character, ASCII). -/
def isWordChar (c : Char) : Bool :=
  c.isAlphanum || c = '_'

/-- A character allowed in a valid target id by the `[\w\-.]+` id format of
trigger_validator.py line 115. -/
def isTargetChar (c : Char) : Bool :=
  isWordChar c || c = '-' || c = '.'

/-- Python `s.strip()` on a character list. -/
def pyStrip (cs : List Char) : List Char :=
  ((cs.dropWhile isPySpace).reverse.dropWhile isPySpace).reverse

/-- The decimal digit character for d in 0..9 (Python `str` of a digit). -/
def dChar (d : Nat) : Char :=
  if d = 0 then '0' else if d = 1 then '1' else if d = 2 then '2' else if d = 3 then '3'
  else if d = 4 then '4' else if d = 5 then '5' else if d = 6 then '6' else if d = 7 then '7'
  else if d = 8 then '8' else '9'

/-- Accumulator loop for the decimal representation of a natural number. -/
def natToCharsAux : Nat → List Char → List Char
  | 0, acc => acc
  | n + 1, acc => natToCharsAux ((n + 1) / 10) (dChar ((n + 1) % 10) :: acc)
termination_by n _ => n
decreasing_by
  exact Nat.div_lt_self (Nat.succ_pos n) (by norm_num)

/-- Python `str(n)` for a non-negative integer: its decimal digits. -/
def natToChars (n : Nat) : List Char :=
  if n = 0 then ['0'] else natToCharsAux n []

/-- Python `int(s)` for a non-empty string of decimal digits. -/
def digitsVal (cs : List Char) : Nat :=
  cs.foldl (fun acc c => acc * 10 + (c.toNat - 48)) 0

/-- The ordered operator alternation `(>=|<=|==|!=|>|<)` of the
TriggerCondition.from_string regex (models.py line 300): alternatives are
tried left to right, so two-character operators win over their one-character
prefixes. -/
def tryOps (cs : List Char) : Option (String × List Char) :=
  match cs with
  | c1 :: c2 :: rest =>
    if c1 = '>' ∧ c2 = '=' then some (">=", rest)
    else if c1 = '<' ∧ c2 = '=' then some ("<=", rest)
    else if c1 = '=' ∧ c2 = '=' then some ("==", rest)
    else if c1 = '!' ∧ c2 = '=' then some ("!=", rest)
    else if c1 = '>' then some (">", c2 :: rest)
    else if c1 = '<' then some ("<", c2 :: rest)
    else none
  | [c1] =>
    if c1 = '>' then some (">", [])
    else if c1 = '<' then some ("<", [])
    else none
  | [] => none

/-- The tail `\s*(>=|<=|==|!=|>|<)\s*(\d+)$` of the from_string regex: both
`\s*` are effectively greedy (no operator or digit is a space). -/
def matchOpThreshold (cs : List Char) : Option (String × Nat) :=
  match tryOps (cs.dropWhile isPySpace) with
  | some (op, cs2) =>
    let digits := cs2.dropWhile isPySpace
    if digits ≠ [] ∧ digits.all Char.isDigit then some (op, digitsVal digits) else none
  | none => none

/-- The lazy group `(.+?)` of the from_string regex: grow the target one
(non-newline) character at a time and stop at the first point where the rest
of the pattern matches the remainder. -/
def searchSplit (acc : List Char) : List Char → Option (List Char × String × Nat)
  | [] => none
  | c :: cs =>
    if c = '\n' then none
    else
      match matchOpThreshold cs with
      | some (op, thr) => some (acc ++ [c], op, thr)
      | none => searchSplit (acc ++ [c]) cs

/-- TriggerCondition.from_string (models.py lines 296-311) on a character
list: strip, match `^(\w+):(.+?)\s*(>=|<=|==|!=|>|<)\s*(\d+)$`, then convert
the captured groups (an unmatched pattern or unknown enum value raises in
Python, i.e. none here). -/
def fromChars (cs : List Char) : Option TriggerCondition :=
  let stripped := pyStrip cs
  let t := stripped.takeWhile isWordChar
  match stripped.dropWhile isWordChar with
  | c :: r =>
    if c = ':' then
      if t.isEmpty then none
      else
        match searchSplit [] r with
        | some (target, opStr, thr) =>
          match parseTriggerTypeStr (String.mk t), parseOperatorStr opStr with
          | some tt, some op => some ⟨tt, String.mk target, op, thr⟩
          | _, _ => none
        | none => none
    else none
  | [] => none

/-- TriggerCondition.from_string (models.py lines 296-311). -/
def TriggerCondition.from_string (s : String) : Option TriggerCondition :=
  fromChars s.toList

/-- TriggerCondition.to_string (models.py lines 292-294). -/
def TriggerCondition.to_string (c : TriggerCondition) : String :=
  c.trigger_type.value ++ ":" ++ c.target_id ++ " " ++ c.operator.value ++ " " ++
    String.mk (natToChars c.threshold)

/-- Reachability along paths all of whose nodes (endpoints included) have a
level number at or below `maxNum`: the graph-theoretic specification of what
the BFS of `_get_reachable_locations_at_level` computes. -/
inductive Reach (conns : List (String × List String)) (levels : List (String × String))
    (maxNum : Nat) (s : String) : String → Prop
  | refl :
      levelOrderNum ((alistGet levels s).getD "A0") ≤ maxNum →
      Reach conns levels maxNum s s
  | step {m n : String} :
      Reach conns levels maxNum s m →
      n ∈ (alistGet conns m).getD [] →
      levelOrderNum ((alistGet levels n).getD "A0") ≤ maxNum →
      Reach conns levels maxNum s n

/-- Character-list prefix test. -/
def listStartsWith : List Char → List Char → Bool
  | [], _ => true
  | _ :: _, [] => false
  | a :: as, b :: bs => a = b && listStartsWith as bs

/-- Character-list infix test. -/
def listHasInfix (pat : List Char) : List Char → Bool
  | [] => listStartsWith pat []
  | c :: rest => listStartsWith pat (c :: rest) || listHasInfix pat rest

/-- Substring test (used to check that a message mentions a phrase). -/
def hasSub (s pat : String) : Bool :=
  listHasInfix pat.toList s.toList

/-- Claim-side reading of the location-path-accessibility rule for the quest
giver: the giver resolves to a location and that location lies outside the
reachable set computed by the level-bounded BFS at the quest level. -/
def lpaGiverOutside (v : Validator) (q : QuestDict) : Bool :=
  match q.giver_npc_id with
  | some g =>
    g ≠ "" && hasKey v.npc_locations g &&
      (match npcLocGet v g with
       | some l => l ≠ "" && decide (l ∉ _get_reachable_locations_at_level v (questLevel q) none)
       | none => false)
  | none => false

/-- Claim-side reading of the location-path-accessibility rule for one task:
the target location of an at_location task, the location of a talked_to task
NPC, or the location of a has_item task item lies outside the reachable set. -/
def lpaTaskOutside (v : Validator) (q : QuestDict) (t : TaskDict) : Bool :=
  match t.completion_type, t.target_id with
  | some ct, some tid =>
    if ct = "at_location" then
      tid ≠ "" && decide (tid ∉ _get_reachable_locations_at_level v (questLevel q) none)
    else if ct = "talked_to" then
      tid ≠ "" && (match npcLocGet v tid with
        | some l => l ≠ "" && decide (l ∉ _get_reachable_locations_at_level v (questLevel q) none)
        | none => false)
    else if ct = "has_item" then
      tid ≠ "" && (match itemLocGet v tid with
        | some l => l ≠ "" && decide (l ∉ _get_reachable_locations_at_level v (questLevel q) none)
        | none => false)
    else false
  | _, _ => false

/-- Claim-side reading of the logical-item-flow rule for a single task, given
the list `prior` of tasks that precede it in order: a gave_item task for item
x with no prior has_item / received_item task for x yields an ERROR when x
does not exist, a WARNING when x exists with acquisition kind gather,
purchase or find, and an ERROR otherwise; any other task yields nothing. -/
def flowClaimStep (v : Validator) (qid : String) (prior : List TaskDict) (t : TaskDict) :
    List ValidationIssue :=
  match t.completion_type, t.target_id with
  | some ct, some x =>
    if ct = "gave_item" then
      if x = "" then []
      else if prior.any (fun p =>
          (p.completion_type == some "has_item" || p.completion_type == some "received_item") &&
          p.target_id == some x) then []
      else
        match alistGet v.items x with
        | none =>
          [⟨Severity.error, qid, t.id, "logical_item_flow",
            "Task requires giving non-existent item " ++ squo ++ x ++ squo⟩]
        | some item =>
          if (match item.acquisition_type with
              | some a => decide (a = "gather" ∨ a = "purchase" ∨ a = "find")
              | none => false) then
            [⟨Severity.warning, qid, t.id, "logical_item_flow",
              "Task requires giving " ++ squo ++ x ++ squo ++
              " but no prior task explicitly obtains it"⟩]
          else
            [⟨Severity.error, qid, t.id, "logical_item_flow",
              "Task requires giving " ++ squo ++ x ++ squo ++
              " which cannot be obtained (no prior task and not gatherable)"⟩]
    else []
  | _, _ => []

/-- Claim-side loop for the logical-item-flow rule: classify every task
against the list of tasks before it. -/
def flowClaimGo (v : Validator) (qid : String) (prior : List TaskDict) :
    List TaskDict → List ValidationIssue
  | [] => []
  | t :: ts => flowClaimStep v qid prior t ++ flowClaimGo v qid (prior ++ [t]) ts

/-- Claim-side statement of the whole logical-item-flow rule. -/
def logical_item_flow_claim (v : Validator) (q : QuestDict) : List ValidationIssue :=
  flowClaimGo v (questId q) [] (sortTasks q.tasks)

/-- A task that (re)establishes a truthy implied current location in
_rule_item_at_correct_location: an at_location task with a truthy target, or a
talked_to task resolving to a known NPC with a truthy location. -/
def establishesLocation (v : Validator) (t : TaskDict) : Bool :=
  (t.completion_type == some "at_location" && truthy t.target_id) ||
  (t.completion_type == some "talked_to" &&
    (match t.target_id with
     | some tid => tid ≠ "" && hasKey v.npc_locations tid && truthy (npcLocGet v tid)
     | none => false))

/-- The four-location chain world of the spec example:
market(A0) - forest(A0) - garden(A0+) - bakery(A1), starting at market, with
one NPC (the quest giver) at the market. -/
def vChain : Validator :=
  { locations := ["market", "forest", "garden", "bakery"]
    npcs := ["vendor"]
    items := [("bread", { location_id := some "bakery", acquisition_type := some "purchase" }),
              ("coin", { location_id := none, acquisition_type := none })]
    npc_locations := [("vendor", some "market")]
    item_locations := [("bread", some "bakery")]
    items_at_location := [(some "bakery", ["bread"])]
    npc_levels := [("vendor", "A0")]
    location_levels := [("market", "A0"), ("forest", "A0"), ("garden", "A0+"), ("bakery", "A1")]
    location_connections :=
      [("market", ["forest"]), ("forest", ["market", "garden"]),
       ("garden", ["forest", "bakery"]), ("bakery", ["garden"])]
    starting_location := some "market" }

/-- The spec example quest: a level-A0 quest with one task targeting the
bakery. -/
def qChainA0 : QuestDict :=
  { id := some "q1"
    giver_npc_id := some "vendor"
    language_level := some "A0"
    tasks := [{ id := some "t1", order := some 1,
                completion_type := some "at_location", target_id := some "bakery" }] }

/-- The same quest raised to level A1. -/
def qChainA1 : QuestDict :=
  { qChainA0 with language_level := some "A1" }

/-- A requirement whose flexible pool repeats one skill id, used to compare
the evaluator against the distinct-skills reading of the claim. -/
def reqDupPool : LevelProgressionRequirement :=
  { from_level := .A0
    to_level := .A0plus
    minimum_total_skill_points := 0
    flexible_skill_pool := ["s", "s"]
    flexible_skill_count := 2
    flexible_threshold := 10 }

/-- Configuration holding only `reqDupPool`. -/
def cfgDupPool : LevelProgressionConfig :=
  { requirements := [reqDupPool] }

/-- A requirement whose flexible pool is much larger than the required count,
used to exhibit unclamped progress percentages. -/
def reqWidePool : LevelProgressionRequirement :=
  { from_level := .A0
    to_level := .A0plus
    minimum_total_skill_points := 0
    flexible_skill_pool := ["a", "b", "c", "d", "e", "f", "g", "h", "i", "j"]
    flexible_skill_count := 2
    flexible_threshold := 10 }

/-- Configuration holding only `reqWidePool`. -/
def cfgWidePool : LevelProgressionConfig :=
  { requirements := [reqWidePool] }

/-- Skill levels granting 50 points to each of the ten pool skills. -/
def skillsWide : List (String × Nat) :=
  [("a", 50), ("b", 50), ("c", 50), ("d", 50), ("e", 50),
   ("f", 50), ("g", 50), ("h", 50), ("i", 50), ("j", 50)]

/-- A location whose level number is at or below `maxNum` (with the default
level A0 for unknown locations, as in the BFS). -/
def lowLevel (levels : List (String × String)) (maxNum : Nat) (x : String) : Prop :=
  levelOrderNum ((alistGet levels x).getD "A0") ≤ maxNum

/-- The number of flexible-pool entries at or above the flexible threshold, as
counted by can_advance / get_progress (level_progression.py lines 295-299):
pool entries are counted with multiplicity. -/
def qualifyingCount (req : LevelProgressionRequirement) (skills : List (String × Nat)) : Nat :=
  (req.flexible_skill_pool.filter
    (fun sid => skillGet skills sid ≥ req.flexible_threshold)).length

/-- The number of DISTINCT pool skills at or above the flexible threshold: the
reading of condition (c) in which the pool is a set of skills. -/
def distinctQualifying (req : LevelProgressionRequirement) (skills : List (String × Nat)) : Nat :=
  (req.flexible_skill_pool.dedup.filter
    (fun sid => skillGet skills sid ≥ req.flexible_threshold)).length

/-- The required-threshold check (b) of can_advance as a boolean: every
(skill, minimum_level) entry is individually met, missing skills counting 0. -/
def coreThresholdsMet (req : LevelProgressionRequirement) (skills : List (String × Nat)) : Bool :=
  req.required_skill_thresholds.all
    (fun th => skillGet skills th.skill_id ≥ th.minimum_level)

/-- The flexible sub-score of a get_progress result (0 when absent). -/
def progressFlexPct (o : Option ProgressResult) : Nat :=
  (o.map ProgressResult.flex_pct).getD 0

/-- The overall percentage of a get_progress result (0 when absent). -/
def progressOverallPct (o : Option ProgressResult) : Nat :=
  (o.map ProgressResult.overall_pct).getD 0

/-- A requirement that skips a level (A0 straight to A1). -/
def reqSkip : LevelProgressionRequirement :=
  { from_level := .A0
    to_level := .A1
    minimum_total_skill_points := 0 }

/-- A quest with no giver and a single has_item task (its giver therefore does
not resolve to any NPC location). -/
def tBread : TaskDict :=
  { id := some "t1", order := some 1,
    completion_type := some "has_item", target_id := some "bread" }

/-- A has_item task whose item ("coin") has no recorded location. -/
def uCoin : TaskDict :=
  { id := some "u1", order := some 1,
    completion_type := some "has_item", target_id := some "coin" }

def qNoGiver : QuestDict :=
  { id := some "q2"
    tasks := [tBread] }

/-- C7: validate_level_progression_requirement rejects every requirement whose
to_level is not the immediate successor of from_level in the order
A0 < A0+ < A1 < A1+ < A2 (in particular A0 -> A1 fails, with an error message
about non-sequential progression), and every requirement whose
flexible_skill_count exceeds the size of flexible_skill_pool. -/
theorem c7_level_requirement_validation :
    ∀ (validSkillIds : Option (List String)) (req : LevelProgressionRequirement),
      (levelIdx req.to_level ≠ levelIdx req.from_level + 1 →
        (validate_level_progression_requirement validSkillIds req).is_valid = false)
      ∧ (req.flexible_skill_count > req.flexible_skill_pool.length →
        (validate_level_progression_requirement validSkillIds req).is_valid = false)
      ∧ (req.from_level = .A0 → req.to_level = .A1 →
        (validate_level_progression_requirement validSkillIds req).is_valid = false ∧
        (validate_level_progression_requirement validSkillIds req).errors.any
          (fun e => hasSub e.message "must be sequential") = true) := by
  intro vs req
  refine ⟨?_, ?_, ?_⟩
  · intro h
    simp [validate_level_progression_requirement, h]
  · intro h
    have hpos : 0 < req.flexible_skill_count := Nat.lt_of_le_of_lt (Nat.zero_le _) h
    simp [validate_level_progression_requirement, h, hpos]
  · intro h1 h2
    have hseq : levelIdx req.to_level ≠ levelIdx req.from_level + 1 := by
      rw [h1, h2]; decide
    refine ⟨by simp [validate_level_progression_requirement, hseq], ?_⟩
    have hmem : (⟨"level_requirement.to_level",
        "Level progression must be sequential: " ++ req.from_level.value ++
          " -> " ++ req.to_level.value ++ " is not valid",
        some (req.from_level.value ++ " -> " ++ req.to_level.value)⟩ :
        TriggerValidationError)
        ∈ (validate_level_progression_requirement vs req).errors := by
      simp [validate_level_progression_requirement, hseq]
    rw [List.any_eq_true]
    refine ⟨_, hmem, ?_⟩
    rw [h1, h2]
    decide

/-- Witness for C7 at the concrete skipping requirement A0 -> A1. -/
theorem c7_witness :
    (validate_level_progression_requirement none reqSkip).is_valid = false ∧
    (validate_level_progression_requirement none reqSkip).errors.any
      (fun e => hasSub e.message "must be sequential") = true :=
  (c7_level_requirement_validation none reqSkip).2.2 rfl rfl

/-- C4 (amended): for a configured requirement, can_advance succeeds iff the
skill-level sum reaches minimum_total_skill_points, every required threshold
is individually met (missing skills count 0), and at least
flexible_skill_count entries of flexible_skill_pool (counted with
multiplicity) are at or above flexible_threshold; advancement succeeds
exactly when the reason list is empty. -/
theorem c4_can_advance (cfg : LevelProgressionConfig) (current : LanguageLevel)
    (skills : List (String × Nat)) (req : LevelProgressionRequirement)
    (hreq : cfg.get_requirement current = some req) :
    ((can_advance cfg current skills).1 = true ↔
      (req.minimum_total_skill_points ≤ skillSum skills
       ∧ coreThresholdsMet req skills = true
       ∧ req.flexible_skill_count ≤ qualifyingCount req skills))
    ∧ (can_advance cfg current skills).1 = (can_advance cfg current skills).2.isEmpty := by
  simp only [can_advance, hreq]
  refine ⟨?_, trivial⟩
  simp only [List.isEmpty_eq_true, List.append_eq_nil, and_assoc]
  refine and_congr ?_ (and_congr ?_ ?_)
  · split_ifs with h
    · exact iff_of_false id (by omega)
    · exact iff_of_true rfl (by omega)
  · rw [List.filterMap_eq_nil_iff]
    simp only [coreThresholdsMet, List.all_eq_true, decide_eq_true_eq]
    refine forall_congr' (fun th => imp_congr_right (fun hth => ?_))
    split_ifs with h
    · exact iff_of_false (by simp) (by omega)
    · exact iff_of_true rfl (by omega)
  · unfold qualifyingCount
    split_ifs with h0 h1
    · exact iff_of_false id (by omega)
    · exact iff_of_true rfl (by omega)
    · exact iff_of_true rfl (by omega)

/-- Counterexample for C4 as stated: with the duplicated flexible pool
["s", "s"] and count 2, can_advance succeeds although only one DISTINCT pool
skill qualifies. -/
theorem c4_counterexample :
    (can_advance cfgDupPool .A0 [("s", 50)]).1 = true
    ∧ distinctQualifying reqDupPool [("s", 50)] < reqDupPool.flexible_skill_count := by
  decide

/-- Witness for C4 at the duplicated-pool configuration. -/
theorem c4_witness :
    (((can_advance cfgDupPool .A0 [("s", 50)]).1 = true ↔
      (reqDupPool.minimum_total_skill_points ≤ skillSum [("s", 50)]
       ∧ coreThresholdsMet reqDupPool [("s", 50)] = true
       ∧ reqDupPool.flexible_skill_count ≤ qualifyingCount reqDupPool [("s", 50)]))
    ∧ (can_advance cfgDupPool .A0 [("s", 50)]).1
        = (can_advance cfgDupPool .A0 [("s", 50)]).2.isEmpty) :=
  c4_can_advance cfgDupPool .A0 [("s", 50)] reqDupPool (by decide)

/-- C5 (amended): for a configured requirement, get_progress computes the
three sub-scores and their truncated unweighted average; the points and core
sub-scores always lie in [0, 100] and every zero-sized denominator yields
100, but the flexible sub-score (and with it the overall average) is not
clamped. -/
theorem c5_get_progress (cfg : LevelProgressionConfig) (current : LanguageLevel)
    (skills : List (String × Nat)) (req : LevelProgressionRequirement)
    (hreq : cfg.get_requirement current = some req) :
    ∃ r, get_progress cfg current skills = some r
      ∧ r.points_pct ≤ 100
      ∧ r.core_pct ≤ 100
      ∧ r.overall_pct = (r.points_pct + r.core_pct + r.flex_pct) / 3
      ∧ (req.minimum_total_skill_points = 0 → r.points_pct = 100)
      ∧ (req.required_skill_thresholds = [] → r.core_pct = 100)
      ∧ (req.flexible_skill_count = 0 → r.flex_pct = 100) := by
  cases hr : get_progress cfg current skills with
  | none =>
    simp only [get_progress, hreq] at hr
    exact Option.noConfusion hr
  | some r =>
    have hr2 := hr
    simp only [get_progress, hreq, Option.some.injEq] at hr2
    refine ⟨r, rfl, ?_, ?_, ?_, ?_, ?_, ?_⟩ <;> rw [← hr2]
    · dsimp only
      split_ifs with h
      · exact Nat.min_le_left _ _
      · exact Nat.le_refl _
    · dsimp only
      split_ifs with h
      · exact Nat.le_refl _
      · have hlen : req.required_skill_thresholds.length ≠ 0 := by
          intro h0
          exact h (List.isEmpty_eq_true.mpr (List.length_eq_zero.mp h0))
        have hle : (req.required_skill_thresholds.filter
            (fun th => skillGet skills th.skill_id ≥ th.minimum_level)).length
            ≤ req.required_skill_thresholds.length := List.length_filter_le _ _
        calc (req.required_skill_thresholds.filter
              (fun th => skillGet skills th.skill_id ≥ th.minimum_level)).length * 100 /
              req.required_skill_thresholds.length
            ≤ req.required_skill_thresholds.length * 100 / req.required_skill_thresholds.length :=
              Nat.div_le_div_right (Nat.mul_le_mul_right _ hle)
          _ = 100 := Nat.mul_div_cancel_left _ (Nat.pos_of_ne_zero hlen)
    · intro h
      simp [h]
    · intro h
      simp [h]
    · intro h
      simp [h]

/-- Counterexample for C5 as stated: with ten qualifying pool skills and a
required count of 2, the flexible sub-score is 500 and the overall percentage
233, so neither is clamped to [0, 100].  (All divisions involved are exact,
so CPython float arithmetic gives the same values.) -/
theorem c5_counterexample :
    progressFlexPct (get_progress cfgWidePool .A0 skillsWide) = 500
    ∧ progressOverallPct (get_progress cfgWidePool .A0 skillsWide) = 233 := by
  decide

/-- Witness for C5 at the wide-pool configuration. -/
theorem c5_witness :
    ∃ r, get_progress cfgWidePool .A0 skillsWide = some r
      ∧ r.points_pct ≤ 100
      ∧ r.core_pct ≤ 100
      ∧ r.overall_pct = (r.points_pct + r.core_pct + r.flex_pct) / 3
      ∧ (reqWidePool.minimum_total_skill_points = 0 → r.points_pct = 100)
      ∧ (reqWidePool.required_skill_thresholds = [] → r.core_pct = 100)
      ∧ (reqWidePool.flexible_skill_count = 0 → r.flex_pct = 100) :=
  c5_get_progress cfgWidePool .A0 skillsWide reqWidePool (by decide)

theorem natToCharsAux_eq : ∀ (n : Nat) (acc : List Char),
    natToCharsAux n acc = ((Nat.digits 10 n).map dChar).reverse ++ acc := by
  intro n
  induction n using Nat.strong_induction_on with
  | _ n ih =>
    intro acc
    match n with
    | 0 => simp [natToCharsAux]
    | m + 1 =>
      rw [natToCharsAux]
      rw [ih ((m + 1) / 10) (Nat.div_lt_self (Nat.succ_pos m) (by norm_num))]
      rw [Nat.digits_def' (by norm_num : (1 : Nat) < 10) (Nat.succ_pos m)]
      simp [List.append_assoc]

theorem dChar_isDigit {d : Nat} (h : d < 10) : (dChar d).isDigit = true := by
  interval_cases d <;> decide

theorem dChar_toNat {d : Nat} (h : d < 10) : (dChar d).toNat - 48 = d := by
  interval_cases d <;> decide

theorem digitsVal_natToChars (n : Nat) : digitsVal (natToChars n) = n := by
  by_cases h0 : n = 0
  · subst h0; decide
  · rw [natToChars, if_neg h0, natToCharsAux_eq, List.append_nil]
    simp only [digitsVal, List.foldl_reverse]
    have key : ∀ (L : List Nat), (∀ d ∈ L, d < 10) →
        (L.map dChar).foldr (fun c acc => acc * 10 + (c.toNat - 48)) 0 = Nat.ofDigits 10 L := by
      intro L
      induction L with
      | nil => intro _; simp [Nat.ofDigits]
      | cons d L ih =>
        intro hd
        simp only [List.map_cons, List.foldr_cons, Nat.ofDigits_cons]
        rw [ih (fun x hx => hd x (List.mem_cons_of_mem _ hx)),
          dChar_toNat (hd d (List.mem_cons_self _ _))]
        ring
    rw [key _ (fun d hd => Nat.digits_lt_base (by norm_num) hd)]
    exact Nat.ofDigits_digits 10 n

theorem natToChars_ne_nil (n : Nat) : natToChars n ≠ [] := by
  rw [natToChars]
  split_ifs with h
  · simp
  · rw [natToCharsAux_eq, List.append_nil]
    intro hc
    rw [List.reverse_eq_nil_iff, List.map_eq_nil_iff] at hc
    exact h (Nat.digits_eq_nil_iff_eq_zero.mp hc)

theorem natToChars_all_digit (n : Nat) : ∀ c ∈ natToChars n, c.isDigit = true := by
  rw [natToChars]
  split_ifs with h
  · intro c hc
    simp only [List.mem_singleton] at hc
    subst hc; decide
  · rw [natToCharsAux_eq, List.append_nil]
    intro c hc
    rw [List.mem_reverse, List.mem_map] at hc
    obtain ⟨d, hd, rfl⟩ := hc
    exact dChar_isDigit (Nat.digits_lt_base (by norm_num) hd)

theorem not_space_of_word {c : Char} (h : isWordChar c = true) : isPySpace c = false := by
  cases hs : isPySpace c
  · rfl
  · exfalso
    simp only [isPySpace, Bool.or_eq_true, decide_eq_true_eq] at hs
    rcases hs with ((((h1 | h1) | h1) | h1) | h1) | h1 <;> subst h1 <;>
      exact absurd h (by decide)

theorem not_space_of_digit {c : Char} (h : c.isDigit = true) : isPySpace c = false := by
  cases hs : isPySpace c
  · rfl
  · exfalso
    simp only [isPySpace, Bool.or_eq_true, decide_eq_true_eq] at hs
    rcases hs with ((((h1 | h1) | h1) | h1) | h1) | h1 <;> subst h1 <;>
      exact absurd h (by decide)

theorem not_space_of_target {c : Char} (h : isTargetChar c = true) : isPySpace c = false := by
  simp only [isTargetChar, Bool.or_eq_true, decide_eq_true_eq] at h
  rcases h with (h | h) | h
  · exact not_space_of_word h
  · subst h; decide
  · subst h; decide

theorem target_ne_newline {c : Char} (h : isTargetChar c = true) : c ≠ '\n' := by
  intro hc; subst hc; exact absurd h (by decide)

theorem tryOps_none_of_target {c : Char} (h : isTargetChar c = true) (l : List Char) :
    tryOps (c :: l) = none := by
  have h1 : c ≠ '>' := by intro hc; subst hc; exact absurd h (by decide)
  have h2 : c ≠ '<' := by intro hc; subst hc; exact absurd h (by decide)
  have h3 : c ≠ '=' := by intro hc; subst hc; exact absurd h (by decide)
  have h4 : c ≠ '!' := by intro hc; subst hc; exact absurd h (by decide)
  cases l with
  | nil => simp [tryOps, h1, h2]
  | cons c2 rest => simp [tryOps, h1, h2, h3, h4]

theorem matchOpThreshold_none_of_target {c : Char} (h : isTargetChar c = true) (l : List Char) :
    matchOpThreshold (c :: l) = none := by
  rw [matchOpThreshold, List.dropWhile_cons, not_space_of_target h]
  simp [tryOps_none_of_target h]

theorem dropWhile_natToChars (n : Nat) :
    (natToChars n).dropWhile isPySpace = natToChars n := by
  cases hnc : natToChars n with
  | nil => rfl
  | cons c cs =>
    rw [List.dropWhile_cons, not_space_of_digit (natToChars_all_digit n c (by
      rw [hnc]; exact List.mem_cons_self _ _))]
    simp

theorem matchOpThreshold_ok (op : TriggerOperator) (n : Nat) :
    matchOpThreshold (' ' :: (op.value.toList ++ ' ' :: natToChars n)) = some (op.value, n) := by
  have hstep : ∀ (L : List Char), L.dropWhile isPySpace = L →
      tryOps L = some (op.value, ' ' :: natToChars n) →
      matchOpThreshold (' ' :: L) = some (op.value, n) := by
    intro L hL hT
    rw [matchOpThreshold]
    rw [show (' ' :: L).dropWhile isPySpace = L.dropWhile isPySpace from by
      rw [List.dropWhile_cons, if_pos (show isPySpace ' ' = true from by decide)]]
    rw [hL, hT]
    dsimp only
    rw [show (' ' :: natToChars n).dropWhile isPySpace = natToChars n from by
      rw [List.dropWhile_cons, if_pos (show isPySpace ' ' = true from by decide),
        dropWhile_natToChars]]
    rw [if_pos ⟨natToChars_ne_nil n,
      List.all_eq_true.mpr (fun c hc => natToChars_all_digit n c hc)⟩, digitsVal_natToChars]
  cases op <;> exact hstep _ rfl rfl

theorem searchSplit_run : ∀ (X acc : List Char), X ≠ [] →
    (∀ c ∈ X, isTargetChar c = true) →
    ∀ (tail : List Char) (op : String) (n : Nat),
      matchOpThreshold tail = some (op, n) →
      searchSplit acc (X ++ tail) = some (acc ++ X, op, n) := by
  intro X
  induction X with
  | nil => intro acc h; exact absurd rfl h
  | cons c X ih =>
    intro acc _ hc tail op n htail
    rw [List.cons_append, searchSplit]
    rw [if_neg (target_ne_newline (hc c (List.mem_cons_self _ _)))]
    cases hX : X with
    | nil =>
      subst hX
      rw [List.nil_append, htail]
    | cons d X2 =>
      subst hX
      rw [List.cons_append]
      rw [matchOpThreshold_none_of_target (hc d (by simp))]
      have hrec := ih (acc ++ [c]) (by simp) (fun x hx => hc x (List.mem_cons_of_mem _ hx))
        tail op n htail
      rw [List.cons_append] at hrec
      dsimp only
      rw [hrec]
      simp

theorem takeWhile_word (T : List Char) (r : List Char)
    (hT : ∀ c ∈ T, isWordChar c = true) :
    (T ++ ':' :: r).takeWhile isWordChar = T
    ∧ (T ++ ':' :: r).dropWhile isWordChar = ':' :: r := by
  induction T with
  | nil =>
    constructor
    · rw [List.nil_append, List.takeWhile_cons, show isWordChar ':' = false from by decide]
      simp
    · rw [List.nil_append, List.dropWhile_cons, show isWordChar ':' = false from by decide]
      simp
  | cons c T ih =>
    obtain ⟨ih1, ih2⟩ := ih (fun x hx => hT x (List.mem_cons_of_mem _ hx))
    constructor
    · rw [List.cons_append, List.takeWhile_cons, hT c (List.mem_cons_self _ _)]
      simp [ih1]
    · rw [List.cons_append, List.dropWhile_cons, hT c (List.mem_cons_self _ _)]
      simp [ih2]

theorem dropWhile_eq_self_of_head (l : List Char)
    (h : ∀ c, l.head? = some c → isPySpace c = false) :
    l.dropWhile isPySpace = l := by
  cases l with
  | nil => rfl
  | cons a m =>
    rw [List.dropWhile_cons, h a rfl]
    simp

theorem pyStrip_id (cs : List Char)
    (h1 : ∀ c, cs.head? = some c → isPySpace c = false)
    (h2 : ∀ c, cs.getLast? = some c → isPySpace c = false) : pyStrip cs = cs := by
  rw [pyStrip, dropWhile_eq_self_of_head cs h1]
  rw [dropWhile_eq_self_of_head cs.reverse
    (fun c hc => h2 c (by rwa [List.head?_reverse] at hc))]
  exact List.reverse_reverse cs

theorem mem_of_getLast?_eq {l : List Char} {a : Char} (h : l.getLast? = some a) : a ∈ l := by
  obtain ⟨hne, rfl⟩ := List.mem_getLast?_eq_getLast (Option.mem_def.mpr h)
  exact List.getLast_mem hne

theorem parseOperatorStr_value (op : TriggerOperator) :
    parseOperatorStr op.value = some op := by
  cases op <;> decide

theorem fromChars_master (T X : List Char) (tt : TriggerType) (op : TriggerOperator) (n : Nat)
    (hT : T ≠ []) (hTw : ∀ c ∈ T, isWordChar c = true)
    (hX : X ≠ []) (hXc : ∀ c ∈ X, isTargetChar c = true)
    (htt : parseTriggerTypeStr (String.mk T) = some tt) :
    fromChars (T ++ ':' :: (X ++ ' ' :: (op.value.toList ++ ' ' :: natToChars n))) =
      some ⟨tt, String.mk X, op, n⟩ := by
  have hstrip : pyStrip
      (T ++ ':' :: (X ++ ' ' :: (op.value.toList ++ ' ' :: natToChars n))) =
      T ++ ':' :: (X ++ ' ' :: (op.value.toList ++ ' ' :: natToChars n)) := by
    apply pyStrip_id
    · intro c hc
      cases T with
      | nil => exact absurd rfl hT
      | cons t T2 =>
        rw [List.cons_append] at hc
        simp only [List.head?_cons, Option.some.injEq] at hc
        subst hc
        exact not_space_of_word (hTw t (List.mem_cons_self _ _))
    · intro c hc
      rw [show T ++ ':' :: (X ++ ' ' :: (op.value.toList ++ ' ' :: natToChars n)) =
          (T ++ ':' :: (X ++ ' ' :: (op.value.toList ++ [' ']))) ++ natToChars n from by
        simp [List.append_assoc]] at hc
      rw [List.getLast?_append_of_ne_nil _ (natToChars_ne_nil n)] at hc
      exact not_space_of_digit (natToChars_all_digit n c (mem_of_getLast?_eq hc))
  rw [fromChars]
  rw [hstrip]
  obtain ⟨htake, hdrop⟩ := takeWhile_word T (X ++ ' ' :: (op.value.toList ++ ' ' :: natToChars n)) hTw
  rw [htake, hdrop]
  dsimp only
  rw [if_pos rfl, if_neg (by simpa using hT)]
  rw [searchSplit_run X [] hX hXc (' ' :: (op.value.toList ++ ' ' :: natToChars n)) op.value n
    (matchOpThreshold_ok op n)]
  dsimp only
  rw [htt, parseOperatorStr_value op]
  simp

/-- C3: parsing the canonical string form of any valid TriggerCondition (any
trigger type, any operator, a target id over the characters of the id format
[\w\-.]+ and a natural threshold) returns the original condition. -/
theorem c3_trigger_roundtrip (tt : TriggerType) (op : TriggerOperator) (target : String)
    (n : Nat) (h1 : target.toList ≠ []) (h2 : ∀ c ∈ target.toList, isTargetChar c = true) :
    TriggerCondition.from_string (TriggerCondition.to_string ⟨tt, target, op, n⟩) =
      some ⟨tt, target, op, n⟩ := by
  have hTne : tt.value.toList ≠ [] := by cases tt <;> decide
  have hTw : ∀ c ∈ tt.value.toList, isWordChar c = true := by cases tt <;> decide
  have htt : parseTriggerTypeStr (String.mk tt.value.toList) = some tt := by
    cases tt <;> rfl
  rw [TriggerCondition.from_string, TriggerCondition.to_string]
  have hlist : (tt.value ++ ":" ++ target ++ " " ++ op.value ++ " " ++
      String.mk (natToChars n)).toList
      = tt.value.toList ++ ':' :: (target.toList ++ ' ' ::
        (op.value.toList ++ ' ' :: natToChars n)) := by
    simp only [String.toList, String.data_append,
      show (":" : String).data = [':'] from rfl,
      show (" " : String).data = [' '] from rfl,
      show (String.mk (natToChars n)).data = natToChars n from rfl,
      List.append_assoc, List.cons_append, List.singleton_append, List.nil_append]
  rw [hlist]
  rw [fromChars_master tt.value.toList target.toList tt op n hTne hTw h1 h2 htt]
  rfl

/-- Witness for C3 at the condition vocab_used_correctly:hola >= 3. -/
theorem c3_witness :
    (("hola" : String).toList ≠ [] ∧ ∀ c ∈ ("hola" : String).toList, isTargetChar c = true) ∧
    TriggerCondition.from_string (TriggerCondition.to_string
      ⟨TriggerType.vocabUsedCorrectly, "hola", TriggerOperator.greaterEqual, 3⟩) =
      some ⟨TriggerType.vocabUsedCorrectly, "hola", TriggerOperator.greaterEqual, 3⟩ :=
  ⟨⟨by decide, by decide⟩,
    c3_trigger_roundtrip TriggerType.vocabUsedCorrectly TriggerOperator.greaterEqual "hola" 3
      (by decide) (by decide)⟩

theorem except_bind_ok {α β : Type} (a : α) (f : α → Except String β) :
    (Except.ok a >>= f : Except String β) = f a := rfl

theorem any_append_single (prior : List TaskDict) (t : TaskDict) (p : TaskDict → Bool) :
    (prior ++ [t]).any p = (prior.any p || p t) := by simp

theorem flowGo_eq_claim (v : Validator) (qid : String) :
    ∀ (ts : List TaskDict) (obtained : List String) (prior : List TaskDict),
      (∀ x : String, x ≠ "" → (x ∈ obtained ↔ prior.any (fun p =>
        (p.completion_type == some "has_item" || p.completion_type == some "received_item") &&
        p.target_id == some x) = true)) →
      flowGo v qid obtained ts = Except.ok (flowClaimGo v qid prior ts) := by
  intro ts
  induction ts with
  | nil => intro obtained prior hinv; rfl
  | cons t ts ih =>
    intro obtained prior hinv
    rw [flowGo, flowClaimGo, flowClaimStep]
    cases hct : t.completion_type with
    | none =>
      dsimp only
      rw [List.nil_append]
      refine ih obtained (prior ++ [t]) ?_
      intro x hx
      rw [any_append_single]
      simp only [hct]
      simpa using hinv x hx
    | some ct =>
      dsimp only
      by_cases hobt : ct = "has_item" ∨ ct = "received_item"
      · have hgave : ¬(ct = "gave_item") := by
          rcases hobt with h | h <;> subst h <;> decide
        rw [if_pos hobt]
        cases htg : t.target_id with
        | none =>
          dsimp only
          rw [List.nil_append]
          refine ih obtained (prior ++ [t]) ?_
          intro x hx
          rw [any_append_single]
          simp only [htg]
          simpa using hinv x hx
        | some x0 =>
          dsimp only
          rw [if_neg hgave]
          rw [List.nil_append]
          by_cases hx0 : x0 = ""
          · subst hx0
            rw [if_neg (by simp)]
            refine ih obtained (prior ++ [t]) ?_
            intro x hx
            rw [any_append_single]
            have hpt : ((t.completion_type == some "has_item" ||
                t.completion_type == some "received_item") && t.target_id == some x) = false := by
              rw [htg]
              simp [show ¬("" = x) from fun h => hx h.symm]
            rw [hpt]
            simpa using hinv x hx
          · rw [if_pos hx0]
            refine ih (x0 :: obtained) (prior ++ [t]) ?_
            intro x hx
            rw [any_append_single]
            have hpt : ((t.completion_type == some "has_item" ||
                t.completion_type == some "received_item") && t.target_id == some x)
                = decide (x0 = x) := by
              rw [hct, htg]
              rcases hobt with h | h <;> subst h <;>
                by_cases hxx : x0 = x <;> simp [hxx]
            rw [hpt]
            simp only [List.mem_cons, Bool.or_eq_true, decide_eq_true_eq]
            rw [← hinv x hx]
            constructor
            · rintro (h | h)
              · exact Or.inr h.symm
              · exact Or.inl h
            · rintro (h | h)
              · exact Or.inr h
              · exact Or.inl h.symm
      · rw [if_neg hobt]
        by_cases hgave : ct = "gave_item"
        · have hnotobt : ((t.completion_type == some "has_item" ||
              t.completion_type == some "received_item")) = false := by
            rw [hct]
            subst hgave
            decide
          cases htg : t.target_id with
          | none =>
            rw [if_pos hgave]
            dsimp only
            rw [List.nil_append]
            refine ih obtained (prior ++ [t]) ?_
            intro x hx
            rw [any_append_single, hnotobt]
            simpa using hinv x hx
          | some x0 =>
            dsimp only
            rw [if_pos hgave, if_pos hgave]
            have hinvnext : ∀ x : String, x ≠ "" → (x ∈ obtained ↔ (prior ++ [t]).any (fun p =>
                (p.completion_type == some "has_item" ||
                 p.completion_type == some "received_item") &&
                p.target_id == some x) = true) := by
              intro x hx
              rw [any_append_single, hnotobt]
              simpa using hinv x hx
            by_cases hx0 : x0 = ""
            · subst hx0
              rw [if_neg (by simp), if_pos rfl]
              rw [List.nil_append]
              exact ih obtained (prior ++ [t]) hinvnext
            · rw [if_neg hx0]
              by_cases hmem : x0 ∈ obtained
              · rw [if_neg (by simp [hmem])]
                rw [if_pos ((hinv x0 hx0).mp hmem)]
                rw [List.nil_append]
                exact ih obtained (prior ++ [t]) hinvnext
              · rw [if_pos ⟨hx0, hmem⟩]
                have hnoprior : ¬(prior.any (fun p =>
                    (p.completion_type == some "has_item" ||
                     p.completion_type == some "received_item") &&
                    p.target_id == some x0) = true) := fun h => hmem ((hinv x0 hx0).mpr h)
                rw [if_neg hnoprior]
                cases hit : alistGet v.items x0 with
                | some item =>
                  rw [show hasKey v.items x0 = true from by rw [hasKey, hit]; rfl]
                  rw [if_pos rfl]
                  rw [show findE v.items x0 = Except.ok item from by rw [findE, hit]]
                  rw [ih obtained (prior ++ [t]) hinvnext]
                  rw [except_bind_ok, except_bind_ok]
                  dsimp only
                  split <;> rfl
                | none =>
                  rw [show hasKey v.items x0 = false from by rw [hasKey, hit]; rfl]
                  rw [if_neg (by decide)]
                  rw [ih obtained (prior ++ [t]) hinvnext]
                  rw [except_bind_ok]
                  rfl
        · have hinvnext2 : ∀ x : String, x ≠ "" → (x ∈ obtained ↔ (prior ++ [t]).any (fun p =>
              (p.completion_type == some "has_item" ||
               p.completion_type == some "received_item") &&
              p.target_id == some x) = true) := by
            intro x hx
            rw [any_append_single]
            have hpt : ((t.completion_type == some "has_item" ||
                t.completion_type == some "received_item") && t.target_id == some x) = false := by
              rw [hct]
              have h1 : ct ≠ "has_item" := fun h => hobt (Or.inl h)
              have h2 : ct ≠ "received_item" := fun h => hobt (Or.inr h)
              simp [h1, h2]
            rw [hpt]
            simpa using hinv x hx
          cases htg : t.target_id with
          | none =>
            rw [if_neg hgave]
            dsimp only
            rw [List.nil_append]
            exact ih obtained (prior ++ [t]) hinvnext2
          | some x0 =>
            dsimp only
            rw [if_neg hgave, if_neg hgave]
            rw [List.nil_append]
            exact ih obtained (prior ++ [t]) hinvnext2

/-- C6: the logical-item-flow rule is exactly the claim-side classification:
for every gave_item task for item x with no prior (by order) has_item or
received_item task for x, an ERROR when x does not exist in the world, a
WARNING when x exists with acquisition kind gather, purchase or find, an
ERROR for any other kind; and no issue when a prior obtaining task exists. -/
theorem c6_logical_item_flow : ∀ (v : Validator) (q : QuestDict),
    _rule_logical_item_flow v q = Except.ok (logical_item_flow_claim v q) := by
  intro v q
  rw [_rule_logical_item_flow, logical_item_flow_claim]
  refine flowGo_eq_claim v (questId q) (sortTasks q.tasks) [] [] ?_
  intro x _
  simp

theorem iacl_skip_has_item (v : Validator) (qid : String) (cur : Option String)
    (t : TaskDict) (rest : List TaskDict)
    (ht : t.completion_type = some "has_item")
    (hcur : truthy cur = false) :
    iaclGo v qid cur (t :: rest) = iaclGo v qid cur rest := by
  rw [iaclGo, ht]
  dsimp only
  rw [if_neg (by decide), if_pos rfl]
  cases htg : t.target_id with
  | none => rfl
  | some x =>
    dsimp only
    split
    · rfl
    · rename_i hk
      rw [not_or] at hk
      obtain ⟨hx, hkey⟩ := hk
      rw [hasKey] at hkey
      have hkey2 : (alistGet v.items x).isSome = true := by
        rw [Option.isSome_iff_ne_none]
        simpa using hkey
      obtain ⟨item, hitem⟩ := Option.isSome_iff_exists.mp hkey2
      rw [show findE v.items x = Except.ok item from by rw [findE, hitem]]
      rw [except_bind_ok]
      rw [if_neg (by rw [hcur]; simp)]
      cases hres : iaclGo v qid cur rest with
      | ok l =>
        rw [except_bind_ok]
        rw [List.nil_append]
      | error e =>
        rfl

theorem iacl_skip_no_location (v : Validator) (qid : String) (cur : Option String)
    (u : TaskDict) (rest : List TaskDict) (x : String) (item : ItemRec)
    (hu : u.completion_type = some "has_item") (hux : u.target_id = some x)
    (hitem : alistGet v.items x = some item) (hloc : truthy item.location_id = false) :
    iaclGo v qid cur (u :: rest) = iaclGo v qid cur rest := by
  rw [iaclGo, hu]
  dsimp only
  rw [if_neg (by decide), if_pos rfl, hux]
  dsimp only
  by_cases hx : x = ""
  · rw [if_pos (Or.inl hx)]
  · have hk : hasKey v.items x = true := by rw [hasKey, hitem]; rfl
    rw [if_neg (by simp [hx, hk])]
    rw [show findE v.items x = Except.ok item from by rw [findE, hitem]]
    rw [except_bind_ok]
    rw [if_neg (by simp [hloc])]
    cases hres : iaclGo v qid cur rest with
    | ok l =>
      rw [except_bind_ok, List.nil_append]
    | error e =>
      rfl

theorem iacl_falsy_prefix (v : Validator) (qid : String) :
    ∀ (pre : List TaskDict) (cur : Option String) (rest : List TaskDict),
      truthy cur = false →
      (∀ u ∈ pre, establishesLocation v u = false) →
      ∃ cur2, truthy cur2 = false ∧
        iaclGo v qid cur (pre ++ rest) = iaclGo v qid cur2 rest := by
  intro pre
  induction pre with
  | nil =>
    intro cur rest hcur _
    exact ⟨cur, hcur, rfl⟩
  | cons u pre ih =>
    intro cur rest hcur hpre
    have hu : establishesLocation v u = false := hpre u (List.mem_cons_self u pre)
    have hpre2 : ∀ w ∈ pre, establishesLocation v w = false :=
      fun w hw => hpre w (List.mem_cons_of_mem u hw)
    rw [List.cons_append]
    cases hct : u.completion_type with
    | none =>
      rw [show iaclGo v qid cur (u :: (pre ++ rest)) = iaclGo v qid cur (pre ++ rest) from by
        rw [iaclGo, hct]]
      exact ih cur rest hcur hpre2
    | some ct =>
      by_cases h1 : ct = "at_location"
      · subst h1
        have htg : truthy u.target_id = false := by
          simpa [establishesLocation, hct] using hu
        have hstep : iaclGo v qid cur (u :: (pre ++ rest)) =
            iaclGo v qid u.target_id (pre ++ rest) := by
          rw [iaclGo, hct]
          dsimp only
          rw [if_pos rfl]
        rw [hstep]
        exact ih u.target_id rest htg hpre2
      · by_cases h2 : ct = "has_item"
        · subst h2
          rw [iacl_skip_has_item v qid cur u (pre ++ rest) hct hcur]
          exact ih cur rest hcur hpre2
        · by_cases h3 : ct = "talked_to"
          · subst h3
            cases htg : u.target_id with
            | none =>
              have hstep : iaclGo v qid cur (u :: (pre ++ rest)) =
                  iaclGo v qid cur (pre ++ rest) := by
                rw [iaclGo, hct]
                dsimp only
                rw [if_neg (by decide), if_neg (by decide), if_pos rfl, htg]
              rw [hstep]
              exact ih cur rest hcur hpre2
            | some npcId =>
              by_cases hg : npcId ≠ "" ∧ hasKey v.npc_locations npcId = true
              · obtain ⟨hne, hk⟩ := hg
                have hk2 := hk
                rw [hasKey] at hk2
                obtain ⟨npcLoc, hnl⟩ := Option.isSome_iff_exists.mp hk2
                have hfalse0 : truthy (npcLocGet v npcId) = false := by
                  simpa [establishesLocation, hct, htg, hne, hk] using hu
                have hfalse : truthy npcLoc = false := by
                  rw [npcLocGet, hnl] at hfalse0
                  simpa [Option.join] using hfalse0
                have hstep : iaclGo v qid cur (u :: (pre ++ rest)) =
                    iaclGo v qid cur (pre ++ rest) := by
                  rw [iaclGo, hct]
                  dsimp only
                  rw [if_neg (by decide), if_neg (by decide), if_pos rfl, htg]
                  dsimp only
                  rw [if_pos ⟨hne, hk⟩]
                  rw [show findE v.npc_locations npcId = Except.ok npcLoc from by
                    rw [findE, hnl]]
                  rw [except_bind_ok]
                  rw [if_neg (by simp [hfalse])]
                rw [hstep]
                exact ih cur rest hcur hpre2
              · have hstep : iaclGo v qid cur (u :: (pre ++ rest)) =
                    iaclGo v qid cur (pre ++ rest) := by
                  rw [iaclGo, hct]
                  dsimp only
                  rw [if_neg (by decide), if_neg (by decide), if_pos rfl, htg]
                  dsimp only
                  rw [if_neg hg]
                rw [hstep]
                exact ih cur rest hcur hpre2
          · have hstep : iaclGo v qid cur (u :: (pre ++ rest)) =
                iaclGo v qid cur (pre ++ rest) := by
              rw [iaclGo, hct]
              dsimp only
              rw [if_neg h1, if_neg h2, if_neg h3]
            rw [hstep]
            exact ih cur rest hcur hpre2

/-- C10: when the quest giver does not resolve to a known NPC location, the
item-at-correct-location rule reports nothing for a has_item task that is not
preceded (in sorted order) by a location-establishing at_location or talked_to
task: the rule simply skips it and continues, and likewise a has_item task
whose item has no location_id is skipped without any issue. -/
theorem c10_item_at_correct_location
    (v : Validator) (q : QuestDict) (cur0 : Option String) (pre : List TaskDict)
    (t : TaskDict) (post : List TaskDict)
    (cur : Option String) (u : TaskDict) (rest : List TaskDict) (x : String) (item : ItemRec)
    (hg : giverImplied v q = Except.ok cur0)
    (hcur : truthy cur0 = false)
    (hsort : sortTasks q.tasks = pre ++ t :: post)
    (hpre : ∀ w ∈ pre, establishesLocation v w = false)
    (ht : t.completion_type = some "has_item")
    (hu : u.completion_type = some "has_item")
    (hux : u.target_id = some x)
    (hitem : alistGet v.items x = some item)
    (hloc : truthy item.location_id = false) :
    (∃ cur2, truthy cur2 = false ∧
      _rule_item_at_correct_location v q = iaclGo v (questId q) cur2 post) ∧
    iaclGo v (questId q) cur (u :: rest) = iaclGo v (questId q) cur rest := by
  constructor
  · obtain ⟨cur2, hc2, heq⟩ :=
      iacl_falsy_prefix v (questId q) pre cur0 (t :: post) hcur hpre
    refine ⟨cur2, hc2, ?_⟩
    rw [_rule_item_at_correct_location, hg, except_bind_ok, hsort, heq]
    exact iacl_skip_has_item v (questId q) cur2 t post ht hc2
  · exact iacl_skip_no_location v (questId q) cur u rest x item hu hux hitem hloc

theorem c10_witness :
    (∃ cur2, truthy cur2 = false ∧
      _rule_item_at_correct_location vChain qNoGiver =
        iaclGo vChain (questId qNoGiver) cur2 []) ∧
    iaclGo vChain (questId qNoGiver) none (uCoin :: []) =
      iaclGo vChain (questId qNoGiver) none [] :=
  c10_item_at_correct_location vChain qNoGiver none [] tBread []
    none uCoin [] "coin" ⟨none, none, none⟩
    rfl rfl rfl (by simp) rfl rfl rfl rfl rfl

theorem findE_ok_of_hasKey {κ α : Type} [DecidableEq κ] (m : List (κ × α)) (k : κ)
    (h : hasKey m k = true) : ∃ a, findE m k = Except.ok a := by
  rw [hasKey] at h
  obtain ⟨a, ha⟩ := Option.isSome_iff_exists.mp h
  exact ⟨a, by rw [findE, ha]⟩

theorem insertTask_ne_nil (t : TaskDict) (l : List TaskDict) : insertTask t l ≠ [] := by
  cases l with
  | nil => simp [insertTask]
  | cons u us =>
    rw [insertTask]
    split <;> simp

theorem sortTasks_ne_nil (t : TaskDict) (ts : List TaskDict) :
    sortTasks (t :: ts) ≠ [] := by
  rw [sortTasks]
  exact insertTask_ne_nil t (sortTasks ts)

theorem rule1_ok (v : Validator) (q : QuestDict) :
    ∃ l, _rule_no_auto_complete_first_task v q = Except.ok l := by
  rw [_rule_no_auto_complete_first_task]
  by_cases h : (q.tasks.isEmpty || !truthy q.giver_npc_id) = true
  · rw [if_pos h]
    exact ⟨[], rfl⟩
  · rw [if_neg h]
    have hne : q.tasks ≠ [] := by
      intro hnil
      rw [hnil] at h
      simp at h
    obtain ⟨t0, ts0, hts⟩ : ∃ t0 ts0, q.tasks = t0 :: ts0 := by
      cases hq : q.tasks with
      | nil => exact absurd hq hne
      | cons a as => exact ⟨a, as, rfl⟩
    have hsne : sortTasks q.tasks ≠ [] := by
      rw [hts]
      exact sortTasks_ne_nil t0 ts0
    obtain ⟨ft, fts, hs⟩ : ∃ ft fts, sortTasks q.tasks = ft :: fts := by
      cases hq : sortTasks q.tasks with
      | nil => exact absurd hq hsne
      | cons a as => exact ⟨a, as, rfl⟩
    rw [hs]
    rw [show listHead (ft :: fts) = Except.ok ft from rfl]
    rw [except_bind_ok]
    exact ⟨_, rfl⟩

theorem rule2_ok (v : Validator) (q : QuestDict) :
    ∃ l, _rule_npc_diversity v q = Except.ok l := by
  rw [_rule_npc_diversity]
  split
  · exact ⟨[], rfl⟩
  · simp only [pure_bind]
    split
    · rename_i h2
      cases hu : ((npcInteractions (sortTasks q.tasks) none).filterMap
          (fun p => if truthy p.2 then p.2 else none)).dedup with
      | nil =>
        rw [hu] at h2
        simp at h2
      | cons a as =>
        exact ⟨_, rfl⟩
    · exact ⟨_, rfl⟩

theorem bnot_true_elim (b : Bool) (h : ¬((!b) = true)) : b = true := by
  cases hb : b
  · exact absurd (by rw [hb]; rfl) h
  · rfl

theorem ilcGo_ok (v : Validator) (qid : String) :
    ∀ ts, ∃ l, ilcGo v qid ts = Except.ok l := by
  intro ts
  induction ts with
  | nil => exact ⟨[], rfl⟩
  | cons t ts ih =>
    obtain ⟨l, hl⟩ := ih
    rw [ilcGo]
    split
    · split
      · rename_i itemId heq
        split
        · exact ⟨l, hl⟩
        · split
          · rw [hl]
            exact ⟨_, rfl⟩
          · rename_i h2
            have hk : hasKey v.items itemId = true := bnot_true_elim _ h2
            obtain ⟨item, hitem⟩ := findE_ok_of_hasKey v.items itemId hk
            rw [hitem, hl]
            exact ⟨_, rfl⟩
      · exact ⟨l, hl⟩
    · exact ⟨l, hl⟩

theorem iaclGo_ok (v : Validator) (qid : String) :
    ∀ ts cur, ∃ l, iaclGo v qid cur ts = Except.ok l := by
  intro ts
  induction ts with
  | nil =>
    intro cur
    exact ⟨[], rfl⟩
  | cons t ts ih =>
    intro cur
    rw [iaclGo]
    split
    · rename_i ct hct
      split
      · exact ih t.target_id
      · split
        · split
          · rename_i itemId heq
            split
            · exact ih cur
            · rename_i h2
              have hk : hasKey v.items itemId = true := by
                rw [not_or] at h2
                exact bnot_true_elim _ h2.2
              obtain ⟨item, hitem⟩ := findE_ok_of_hasKey v.items itemId hk
              obtain ⟨l, hl⟩ := ih cur
              rw [hitem, hl]
              exact ⟨_, rfl⟩
          · exact ih cur
        · split
          · split
            · rename_i npcId heq
              split
              · rename_i hg
                obtain ⟨npcLoc, hnl⟩ := findE_ok_of_hasKey v.npc_locations npcId hg.2
                simp only [hnl, except_bind_ok]
                split
                · exact ih npcLoc
                · exact ih cur
              · exact ih cur
            · exact ih cur
          · exact ih cur
    · exact ih cur

theorem giverImplied_ok (v : Validator) (q : QuestDict) :
    ∃ c, giverImplied v q = Except.ok c := by
  rw [giverImplied]
  split
  · rename_i g hg
    split
    · rename_i hgd
      exact findE_ok_of_hasKey v.npc_locations g hgd.2
    · exact ⟨none, rfl⟩
  · exact ⟨none, rfl⟩

theorem rule3_ok (v : Validator) (q : QuestDict) :
    ∃ l, _rule_item_location_consistency v q = Except.ok l := by
  rw [_rule_item_location_consistency]
  exact ilcGo_ok v (questId q) q.tasks

theorem rule3b_ok (v : Validator) (q : QuestDict) :
    ∃ l, _rule_item_at_correct_location v q = Except.ok l := by
  obtain ⟨c, hc⟩ := giverImplied_ok v q
  obtain ⟨l, hl⟩ := iaclGo_ok v (questId q) (sortTasks q.tasks) c
  rw [_rule_item_at_correct_location, hc]
  simp only [except_bind_ok]
  exact ⟨l, hl⟩

theorem flowGo_ok (v : Validator) (qid : String) :
    ∀ ts obtained, ∃ l, flowGo v qid obtained ts = Except.ok l := by
  intro ts
  induction ts with
  | nil =>
    intro o
    exact ⟨[], rfl⟩
  | cons t ts ih =>
    intro o
    rw [flowGo]
    split
    · split
      · split
        · rename_i x heq
          split
          · exact ih (x :: o)
          · exact ih o
        · exact ih o
      · split
        · split
          · rename_i x heq
            split
            · split
              · rename_i hk
                obtain ⟨item, hitem⟩ := findE_ok_of_hasKey v.items x hk
                obtain ⟨l, hl⟩ := ih o
                rw [hitem, hl]
                exact ⟨_, rfl⟩
              · obtain ⟨l, hl⟩ := ih o
                rw [hl]
                exact ⟨_, rfl⟩
            · exact ih o
          · exact ih o
        · exact ih o
    · exact ih o

theorem rule4_ok (v : Validator) (q : QuestDict) :
    ∃ l, _rule_logical_item_flow v q = Except.ok l := by
  rw [_rule_logical_item_flow]
  exact flowGo_ok v (questId q) (sortTasks q.tasks) []

theorem ltoGo_ok (v : Validator) (qid : String) :
    ∀ ts visited, ∃ l, ltoGo v qid visited ts = Except.ok l := by
  intro ts
  induction ts with
  | nil =>
    intro vis
    exact ⟨[], rfl⟩
  | cons t ts ih =>
    intro vis
    rw [ltoGo]
    split
    · split
      · split
        · rename_i tid heq
          split
          · exact ih (tid :: vis)
          · exact ih vis
        · exact ih vis
      · split
        · split
          · rename_i tid heq
            split
            · obtain ⟨l, hl⟩ := ih vis
              rw [hl]
              exact ⟨_, rfl⟩
            · exact ih vis
          · exact ih vis
        · split
          · split
            · rename_i tid heq
              split
              · rename_i hg
                obtain ⟨item, hitem⟩ := findE_ok_of_hasKey v.items tid hg.2
                obtain ⟨l, hl⟩ := ih vis
                rw [hitem, hl]
                exact ⟨_, rfl⟩
              · exact ih vis
            · exact ih vis
          · exact ih vis
    · exact ih vis

theorem rule8_ok (v : Validator) (q : QuestDict) :
    ∃ l, _rule_logical_task_order v q = Except.ok l := by
  rw [_rule_logical_task_order]
  split
  · rename_i g hg
    split
    · rename_i hgd
      obtain ⟨gloc, hgl⟩ := findE_ok_of_hasKey v.npc_locations g hgd.2
      simp only [hgl, except_bind_ok, pure_bind]
      exact ltoGo_ok v (questId q) (sortTasks q.tasks) _
    · simp only [pure_bind]
      exact ltoGo_ok v (questId q) (sortTasks q.tasks) []
  · simp only [pure_bind]
    exact ltoGo_ok v (questId q) (sortTasks q.tasks) []

theorem llcGo_ok (v : Validator) (qid qlevel : String) (qnum : Nat) :
    ∀ ts, ∃ l, llcGo v qid qlevel qnum ts = Except.ok l := by
  intro ts
  induction ts with
  | nil => exact ⟨[], rfl⟩
  | cons t ts ih =>
    obtain ⟨l, hl⟩ := ih
    rw [llcGo]
    split
    · rename_i ct tid hct htid
      split
      · rename_i hg
        obtain ⟨locLevel, hll⟩ := findE_ok_of_hasKey v.location_levels tid hg.2.2
        rw [hll, hl]
        exact ⟨_, rfl⟩
      · split
        · rename_i hg
          obtain ⟨npcLevel, hnl⟩ := findE_ok_of_hasKey v.npc_levels tid hg.2.2
          rw [hnl, hl]
          exact ⟨_, rfl⟩
        · exact ⟨l, hl⟩
    · exact ⟨l, hl⟩

theorem rule9_ok (v : Validator) (q : QuestDict) :
    ∃ l, _rule_language_level_consistency v q = Except.ok l := by
  obtain ⟨tl, htl⟩ := llcGo_ok v (questId q) (questLevel q) (levelOrderNum (questLevel q)) q.tasks
  rw [_rule_language_level_consistency]
  split
  · rename_i g hg
    split
    · rename_i hgd
      obtain ⟨glevel, hgl⟩ := findE_ok_of_hasKey v.npc_levels g hgd.2
      simp only [hgl, except_bind_ok, pure_bind, htl]
      exact ⟨_, rfl⟩
    · simp only [pure_bind, htl, except_bind_ok]
      exact ⟨_, rfl⟩
  · simp only [pure_bind, htl, except_bind_ok]
    exact ⟨_, rfl⟩

theorem rule12_ok (v : Validator) (q : QuestDict) :
    ∃ l, _rule_location_path_accessibility v q = Except.ok l := by
  rw [_rule_location_path_accessibility]
  split
  · rename_i g hg
    split
    · rename_i hgd
      obtain ⟨gloc, hgl⟩ := findE_ok_of_hasKey v.npc_locations g hgd.2
      simp only [hgl, except_bind_ok, pure_bind]
      exact ⟨_, rfl⟩
    · simp only [pure_bind]
      exact ⟨_, rfl⟩
  · simp only [pure_bind]
    exact ⟨_, rfl⟩

theorem ialGo_ok (v : Validator) (qid : String) :
    ∀ ts, ∃ l, ialGo v qid ts = Except.ok l := by
  intro ts
  induction ts with
  | nil => exact ⟨[], rfl⟩
  | cons t ts ih =>
    obtain ⟨l, hl⟩ := ih
    rw [ialGo]
    split
    · split
      · rename_i tid heq
        split
        · exact ⟨l, hl⟩
        · split
          · exact ⟨l, hl⟩
          · rename_i h2
            have hk : hasKey v.items tid = true := bnot_true_elim _ h2
            obtain ⟨item, hitem⟩ := findE_ok_of_hasKey v.items tid hk
            simp only [hitem, except_bind_ok]
            split
            · rw [hl]
              exact ⟨_, rfl⟩
            · split
              · rw [hl]
                exact ⟨_, rfl⟩
              · split
                · rw [hl]
                  exact ⟨_, rfl⟩
                · exact ⟨l, hl⟩
      · exact ⟨l, hl⟩
    · exact ⟨l, hl⟩

theorem rule13_ok (v : Validator) (q : QuestDict) :
    ∃ l, _rule_item_actually_at_location v q = Except.ok l := by
  rw [_rule_item_actually_at_location]
  exact ialGo_ok v (questId q) q.tasks

theorem dup_shape (v : Validator) (q : QuestDict) :
    ∃ i p, _rule_no_duplicate_structures v q =
      (i, { v with seen_task_patterns := p }) := by
  rw [_rule_no_duplicate_structures]
  split
  · exact ⟨_, v.seen_task_patterns, rfl⟩
  · exact ⟨[], _, rfl⟩

theorem validate_quest_ok (v : Validator) (q : QuestDict) :
    ∃ issues p, validate_quest v q =
      Except.ok (issues, { v with seen_task_patterns := p }) := by
  obtain ⟨l1, h1⟩ := rule1_ok v q
  obtain ⟨l2, h2⟩ := rule2_ok v q
  obtain ⟨l3, h3⟩ := rule3_ok v q
  obtain ⟨l3b, h3b⟩ := rule3b_ok v q
  obtain ⟨l4, h4⟩ := rule4_ok v q
  obtain ⟨i11, p, h11⟩ := dup_shape v q
  obtain ⟨l8, h8⟩ := rule8_ok v q
  obtain ⟨l9, h9⟩ := rule9_ok v q
  obtain ⟨l12, h12⟩ := rule12_ok { v with seen_task_patterns := p } q
  obtain ⟨l13, h13⟩ := rule13_ok { v with seen_task_patterns := p } q
  refine ⟨l1 ++ l2 ++ l3 ++ l3b ++ l4 ++ _rule_no_immediate_item_return v q ++
    _rule_valid_references v q ++ _rule_valid_quest_giver v q ++ l8 ++ l9 ++
    _rule_vocabulary_progression v q ++ i11 ++ l12 ++ l13, p, ?_⟩
  rw [validate_quest]
  simp only [h1, h2, h3, h3b, h4, h8, h9, h11, h12, h13, except_bind_ok, pure_bind,
    List.append_assoc]
  rfl

/-- C8: validate_quest is total on untrusted candidate data: for every
validator state and every quest dictionary (any subset of the expected fields
may be missing, which the optional/defaulted fields of QuestDict and TaskDict
model), it returns a result and never raises an exception: every raising
access inside the thirteen rules is guarded. -/
theorem c8_validate_quest_total (v : Validator) (q : QuestDict) :
    ∃ r, validate_quest v q = Except.ok r := by
  obtain ⟨issues, p, h⟩ := validate_quest_ok v q
  exact ⟨_, h⟩

/-- C9: with the pattern-deduplication state freshly reset, validate_quest is
deterministic: two validators that agree after reset_pattern_tracking produce
identical outcomes on the same quest (in particular the same issue list), and
the only component of the validator state that a run can change is
seen_task_patterns. -/
theorem c9_validate_quest_deterministic (v w : Validator) (q : QuestDict)
    (h : reset_pattern_tracking v = reset_pattern_tracking w) :
    validate_quest (reset_pattern_tracking v) q =
      validate_quest (reset_pattern_tracking w) q ∧
    ∃ issues p, validate_quest (reset_pattern_tracking v) q =
      Except.ok (issues,
        { reset_pattern_tracking v with seen_task_patterns := p }) :=
  ⟨by rw [h], validate_quest_ok (reset_pattern_tracking v) q⟩

theorem c9_witness :
    validate_quest (reset_pattern_tracking vChain) qChainA0 =
      validate_quest (reset_pattern_tracking vChain) qChainA0 ∧
    ∃ issues p, validate_quest (reset_pattern_tracking vChain) qChainA0 =
      Except.ok (issues,
        { reset_pattern_tracking vChain with seen_task_patterns := p }) :=
  c9_validate_quest_deterministic vChain vChain qChainA0 rfl

theorem flatten_indicator_length {α : Type} (f : α → List ValidationIssue) (p : α → Bool)
    (hf : ∀ t, (f t).length = if p t then 1 else 0) :
    ∀ l : List α, ((l.map f).flatten).length = l.countP p := by
  intro l
  induction l with
  | nil => rfl
  | cons t ts ih =>
    rw [List.map_cons, List.flatten_cons, List.length_append, hf t, ih, List.countP_cons]
    by_cases hp : p t = true
    · rw [if_pos hp]
      omega
    · rw [if_neg hp]
      omega

theorem flatten_all_error {α : Type} (f : α → List ValidationIssue) (pr : ValidationIssue → Bool)
    (hf : ∀ t, (f t).all pr = true) :
    ∀ l : List α, ((l.map f).flatten).all pr = true := by
  intro l
  induction l with
  | nil => rfl
  | cons t ts ih =>
    rw [List.map_cons, List.flatten_cons, List.all_append, hf t, ih]
    rfl

theorem lpaTaskIssue_error (v : Validator) (qid qlevel : String) (reach : List String)
    (t : TaskDict) :
    (lpaTaskIssue v qid qlevel reach t).all (fun i => i.severity == Severity.error) = true := by
  rw [lpaTaskIssue]
  repeat first | rfl | split

theorem lpaTaskIssue_length (v : Validator) (q : QuestDict) (t : TaskDict) :
    (lpaTaskIssue v (questId q) (questLevel q)
      (_get_reachable_locations_at_level v (questLevel q) none) t).length =
    if lpaTaskOutside v q t = true then 1 else 0 := by
  rw [lpaTaskIssue, lpaTaskOutside]
  split
  · rename_i ct tid hct htid
    by_cases h1 : ct = "at_location"
    · by_cases h2 : tid = "" <;>
        by_cases h3 : tid ∈ _get_reachable_locations_at_level v (questLevel q) none <;>
        simp [h1, h2, h3]
    · by_cases h1b : ct = "talked_to"
      · by_cases h2 : tid = ""
        · simp [h1, h1b, h2]
        · simp [h1, h1b, h2]
          split
          · rename_i l hnl
            by_cases h3 : l = "" <;>
              by_cases h4 : l ∈ _get_reachable_locations_at_level v (questLevel q) none <;>
              simp [h3, h4]
          · rfl
      · by_cases h1c : ct = "has_item"
        · by_cases h2 : tid = ""
          · simp [h1, h1b, h1c, h2]
          · simp [h1, h1b, h1c, h2]
            split
            · rename_i l hil
              by_cases h3 : l = "" <;>
                by_cases h4 : l ∈ _get_reachable_locations_at_level v (questLevel q) none <;>
                simp [h3, h4]
            · rfl
        · simp [h1, h1b, h1c]
  · rfl

theorem lpa_characterization (v : Validator) (q : QuestDict) :
    ∃ issues,
      _rule_location_path_accessibility v q = Except.ok issues ∧
      issues.length = (if lpaGiverOutside v q = true then 1 else 0) +
        q.tasks.countP (fun t => lpaTaskOutside v q t) ∧
      issues.all (fun i => i.severity == Severity.error) = true := by
  have hflat := flatten_indicator_length _ _ (lpaTaskIssue_length v q) q.tasks
  have herr := flatten_all_error
    (lpaTaskIssue v (questId q) (questLevel q)
      (_get_reachable_locations_at_level v (questLevel q) none))
    (fun i => i.severity == Severity.error)
    (fun t => lpaTaskIssue_error v (questId q) (questLevel q)
      (_get_reachable_locations_at_level v (questLevel q) none) t) q.tasks
  rw [_rule_location_path_accessibility]
  split
  · rename_i g hg
    split
    · rename_i hgd
      have hk := hgd.2
      rw [hasKey] at hk
      obtain ⟨gloc, halist⟩ := Option.isSome_iff_exists.mp hk
      have hfind : findE v.npc_locations g = Except.ok gloc := by rw [findE, halist]
      have hnpc : npcLocGet v g = gloc := by
        rw [npcLocGet, halist]
        rfl
      simp only [hfind, except_bind_ok, pure_bind]
      refine ⟨_, rfl, ?_, ?_⟩
      · rw [List.length_append, hflat]
        congr 1
        rw [lpaGiverOutside, hg]
        dsimp only
        cases gloc with
        | none => simp [hgd.1, hgd.2, hnpc]
        | some l =>
          by_cases h3 : l = "" <;>
            by_cases h4 : l ∈ _get_reachable_locations_at_level v (questLevel q) none <;>
            simp [hgd.1, hgd.2, hnpc, h3, h4]
      · rw [List.all_append, herr]
        cases gloc with
        | none => rfl
        | some l =>
          dsimp only
          by_cases h34 : l ≠ "" ∧ l ∉ _get_reachable_locations_at_level v (questLevel q) none
          · rw [if_pos h34]
            rfl
          · rw [if_neg h34]
            rfl
    · rename_i hgd
      have hout : lpaGiverOutside v q = false := by
        rw [lpaGiverOutside, hg]
        dsimp only
        by_cases hge : g = ""
        · simp [hge]
        · have hhk : hasKey v.npc_locations g = false := by
            cases hh : hasKey v.npc_locations g
            · rfl
            · exact absurd ⟨hge, hh⟩ hgd
          simp [hhk]
      simp only [pure_bind]
      refine ⟨_, rfl, ?_, ?_⟩
      · rw [List.nil_append, hflat, hout]
        simp
      · rw [List.nil_append]
        exact herr
  · rename_i hg
    have hout : lpaGiverOutside v q = false := by
      rw [lpaGiverOutside, hg]
    simp only [pure_bind]
    refine ⟨_, rfl, ?_, ?_⟩
    · rw [List.nil_append, hflat, hout]
      simp
    · rw [List.nil_append]
      exact herr

unseal bfs_loop in
/-- C1: the location-path-accessibility rule never raises, emits one ERROR for
the quest giver exactly when the giver location falls outside the
level-bounded reachable set computed by _get_reachable_locations_at_level,
one ERROR per task whose at_location target, talked_to NPC location or
has_item item location falls outside that set, and nothing else (every issue
it emits has ERROR severity); on the chain world
market(A0)-forest(A0)-garden(A0+)-bakery(A1) with starting location market,
the level-A0 quest with one task targeting bakery yields exactly one issue
whose message mentions "not reachable", and the same quest at level A1 yields
no issues. -/
theorem c1_location_path_accessibility :
    (∀ (v : Validator) (q : QuestDict), ∃ issues,
      _rule_location_path_accessibility v q = Except.ok issues ∧
      issues.length = (if lpaGiverOutside v q = true then 1 else 0) +
        q.tasks.countP (fun t => lpaTaskOutside v q t) ∧
      issues.all (fun i => i.severity == Severity.error) = true) ∧
    (∃ issues, _rule_location_path_accessibility vChain qChainA0 = Except.ok issues ∧
      issues.length = 1 ∧
      issues.all (fun i => hasSub i.message "not reachable") = true) ∧
    _rule_location_path_accessibility vChain qChainA1 = Except.ok [] :=
  ⟨lpa_characterization, ⟨_, rfl, rfl, rfl⟩, rfl⟩

theorem Reach_mono (conns : List (String × List String)) (levels : List (String × String))
    (m1 m2 : Nat) (s x : String) (hle : m1 ≤ m2)
    (h : Reach conns levels m1 s x) : Reach conns levels m2 s x := by
  induction h with
  | refl h0 => exact Reach.refl (Nat.le_trans h0 hle)
  | step hm hn hlev ih => exact Reach.step ih hn (Nat.le_trans hlev hle)

theorem bfs_loop_sound (conns : List (String × List String))
    (levels : List (String × String)) (maxNum : Nat) (s : String) :
    ∀ (reachable visited queue : List String),
      (∀ x ∈ reachable, Reach conns levels maxNum s x) →
      (∀ x ∈ queue, x = s ∨ ∃ m, Reach conns levels maxNum s m ∧
        x ∈ (alistGet conns m).getD []) →
      ∀ x ∈ bfs_loop conns levels maxNum reachable visited queue,
        Reach conns levels maxNum s x := by
  intro reachable visited queue
  induction reachable, visited, queue using bfs_loop.induct conns levels maxNum with
  | case1 reachable visited =>
    intro hr hq x hx
    rw [bfs_loop] at hx
    exact hr x hx
  | case2 reachable visited current rest hvis ih =>
    intro hr hq x hx
    rw [bfs_loop] at hx
    rw [if_pos hvis] at hx
    exact ih hr (fun y hy => hq y (List.mem_cons_of_mem current hy)) x hx
  | case3 reachable visited current rest hvis hlev ih =>
    intro hr hq x hx
    rw [bfs_loop] at hx
    rw [if_neg hvis, if_pos hlev] at hx
    have hcur : Reach conns levels maxNum s current := by
      rcases hq current (List.mem_cons_self current rest) with h | ⟨m, hm, hnb⟩
      · rw [h]
        exact Reach.refl (h ▸ hlev)
      · exact Reach.step hm hnb hlev
    refine ih ?_ ?_ x hx
    · intro y hy
      rcases List.mem_cons.mp hy with h | h
      · rw [h]
        exact hcur
      · exact hr y h
    · intro y hy
      rcases List.mem_append.mp hy with h | h
      · exact hq y (List.mem_cons_of_mem current h)
      · exact Or.inr ⟨current, hcur, (List.mem_filter.mp h).1⟩
  | case4 reachable visited current rest hvis hlev ih =>
    intro hr hq x hx
    rw [bfs_loop] at hx
    rw [if_neg hvis, if_neg hlev] at hx
    exact ih hr (fun y hy => hq y (List.mem_cons_of_mem current hy)) x hx

theorem bfs_loop_complete (conns : List (String × List String))
    (levels : List (String × String)) (maxNum : Nat) :
    ∀ (reachable visited queue : List String),
      (∀ x ∈ visited, levelOrderNum ((alistGet levels x).getD "A0") ≤ maxNum →
        x ∈ reachable) →
      (∀ r ∈ reachable, ∀ n ∈ (alistGet conns r).getD [], n ∈ visited ∨ n ∈ queue) →
      (∀ x ∈ reachable, x ∈ visited) →
      (∀ x ∈ queue, levelOrderNum ((alistGet levels x).getD "A0") ≤ maxNum →
        x ∈ bfs_loop conns levels maxNum reachable visited queue) ∧
      (∀ x ∈ reachable, x ∈ bfs_loop conns levels maxNum reachable visited queue) ∧
      (∀ m ∈ bfs_loop conns levels maxNum reachable visited queue,
        ∀ n ∈ (alistGet conns m).getD [],
          levelOrderNum ((alistGet levels n).getD "A0") ≤ maxNum →
          n ∈ bfs_loop conns levels maxNum reachable visited queue) := by
  intro reachable visited queue
  induction reachable, visited, queue using bfs_loop.induct conns levels maxNum with
  | case1 reachable visited =>
    intro h1 h2 h3
    have hres : bfs_loop conns levels maxNum reachable visited [] = reachable := by
      rw [bfs_loop]
    rw [hres]
    refine ⟨fun x hx => absurd hx (by simp), fun x hx => hx, ?_⟩
    intro m hm n hn hlow
    rcases h2 m hm n hn with h | h
    · exact h1 n h hlow
    · exact absurd h (by simp)
  | case2 reachable visited current rest hvis ih =>
    intro h1 h2 h3
    have hres : bfs_loop conns levels maxNum reachable visited (current :: rest) =
        bfs_loop conns levels maxNum reachable visited rest := by
      rw [bfs_loop, if_pos hvis]
    have h2r : ∀ r ∈ reachable, ∀ n ∈ (alistGet conns r).getD [],
        n ∈ visited ∨ n ∈ rest := by
      intro r hr n hn
      rcases h2 r hr n hn with h | h
      · exact Or.inl h
      · rcases List.mem_cons.mp h with h | h
        · exact Or.inl (h ▸ hvis)
        · exact Or.inr h
    obtain ⟨ih1, ih2, ih3⟩ := ih h1 h2r h3
    rw [hres]
    refine ⟨?_, ih2, ih3⟩
    intro x hx hlow
    rcases List.mem_cons.mp hx with h | h
    · exact ih2 x (h1 x (h ▸ hvis) hlow)
    · exact ih1 x h hlow
  | case3 reachable visited current rest hvis hlev ih =>
    intro h1 h2 h3
    have hres : bfs_loop conns levels maxNum reachable visited (current :: rest) =
        bfs_loop conns levels maxNum (current :: reachable) (current :: visited)
          (rest ++ ((alistGet conns current).getD []).filter
            (fun n => n ∉ current :: visited)) := by
      rw [bfs_loop, if_neg hvis, if_pos hlev]
    have h1n : ∀ x ∈ current :: visited,
        levelOrderNum ((alistGet levels x).getD "A0") ≤ maxNum →
        x ∈ current :: reachable := by
      intro x hx hlow
      rcases List.mem_cons.mp hx with h | h
      · exact h ▸ List.mem_cons_self current reachable
      · exact List.mem_cons_of_mem current (h1 x h hlow)
    have h2n : ∀ r ∈ current :: reachable, ∀ n ∈ (alistGet conns r).getD [],
        n ∈ current :: visited ∨
        n ∈ rest ++ ((alistGet conns current).getD []).filter
          (fun n => n ∉ current :: visited) := by
      intro r hr n hn
      rcases List.mem_cons.mp hr with h | h
      · subst h
        by_cases hnv : n ∈ r :: visited
        · exact Or.inl hnv
        · refine Or.inr (List.mem_append_right _ (List.mem_filter.mpr ⟨hn, ?_⟩))
          exact decide_eq_true hnv
      · rcases h2 r h n hn with hh | hh
        · exact Or.inl (List.mem_cons_of_mem current hh)
        · rcases List.mem_cons.mp hh with hh | hh
          · exact Or.inl (hh ▸ List.mem_cons_self current visited)
          · exact Or.inr (List.mem_append_left _ hh)
    have h3n : ∀ x ∈ current :: reachable, x ∈ current :: visited := by
      intro x hx
      rcases List.mem_cons.mp hx with h | h
      · exact h ▸ List.mem_cons_self current visited
      · exact List.mem_cons_of_mem current (h3 x h)
    obtain ⟨ih1, ih2, ih3⟩ := ih h1n h2n h3n
    rw [hres]
    refine ⟨?_, ?_, ih3⟩
    · intro x hx hlow
      rcases List.mem_cons.mp hx with h | h
      · exact ih2 x (h ▸ List.mem_cons_self current reachable)
      · exact ih1 x (List.mem_append_left _ h) hlow
    · intro x hx
      exact ih2 x (List.mem_cons_of_mem current hx)
  | case4 reachable visited current rest hvis hlev ih =>
    intro h1 h2 h3
    have hres : bfs_loop conns levels maxNum reachable visited (current :: rest) =
        bfs_loop conns levels maxNum reachable (current :: visited) rest := by
      rw [bfs_loop, if_neg hvis, if_neg hlev]
    have h1n : ∀ x ∈ current :: visited,
        levelOrderNum ((alistGet levels x).getD "A0") ≤ maxNum → x ∈ reachable := by
      intro x hx hlow
      rcases List.mem_cons.mp hx with h | h
      · exact absurd (h ▸ hlow) hlev
      · exact h1 x h hlow
    have h2n : ∀ r ∈ reachable, ∀ n ∈ (alistGet conns r).getD [],
        n ∈ current :: visited ∨ n ∈ rest := by
      intro r hr n hn
      rcases h2 r hr n hn with h | h
      · exact Or.inl (List.mem_cons_of_mem current h)
      · rcases List.mem_cons.mp h with h | h
        · exact Or.inl (h ▸ List.mem_cons_self current visited)
        · exact Or.inr h
    have h3n : ∀ x ∈ reachable, x ∈ current :: visited :=
      fun x hx => List.mem_cons_of_mem current (h3 x hx)
    obtain ⟨ih1, ih2, ih3⟩ := ih h1n h2n h3n
    rw [hres]
    refine ⟨?_, ih2, ih3⟩
    intro x hx hlow
    rcases List.mem_cons.mp hx with h | h
    · exact absurd (h ▸ hlow) hlev
    · exact ih1 x h hlow

theorem bfs_mem_iff (conns : List (String × List String))
    (levels : List (String × String)) (maxNum : Nat) (s x : String) :
    x ∈ bfs_loop conns levels maxNum [] [] [s] ↔ Reach conns levels maxNum s x := by
  constructor
  · intro h
    refine bfs_loop_sound conns levels maxNum s [] [] [s] (by simp) ?_ x h
    intro y hy
    exact Or.inl (List.mem_singleton.mp hy)
  · intro h
    obtain ⟨h1, h2, h3⟩ := bfs_loop_complete conns levels maxNum [] [] [s]
      (by simp) (by simp) (by simp)
    induction h with
    | refl h0 => exact h1 s (List.mem_singleton.mpr rfl) h0
    | step hm hnb hlev ih => exact h3 _ ih _ hnb hlev

/-- C2: for every world graph, start location and pair of levels X, Xp with
X before Xp in the order A0 < A0+ < A1 < A1+ < A2, every location reachable
at maximum level X (as computed by _get_reachable_locations_at_level) is also
reachable at maximum level Xp: the level-bounded reachability set is monotone
in the level. -/
theorem c2_reachability_monotone (X Xp : String)
    (hx : X ∈ LEVEL_ORDER.map Prod.fst) (hxp : Xp ∈ LEVEL_ORDER.map Prod.fst)
    (hlt : levelOrderNum X < levelOrderNum Xp) :
    ∀ (v : Validator) (startLocation : Option String) (loc : String),
      loc ∈ _get_reachable_locations_at_level v X startLocation →
      loc ∈ _get_reachable_locations_at_level v Xp startLocation := by
  intro v startLocation loc hloc
  rw [_get_reachable_locations_at_level] at hloc ⊢
  cases hstart : (if truthy startLocation = true then startLocation
      else v.starting_location) with
  | none =>
    rw [hstart] at hloc
    simp at hloc
  | some s =>
    rw [hstart] at hloc
    dsimp only at hloc ⊢
    by_cases hs : s = ""
    · rw [if_pos hs] at hloc
      exact absurd hloc (by simp)
    · rw [if_neg hs] at hloc ⊢
      have hreach := (bfs_mem_iff v.location_connections v.location_levels
        (levelOrderNum X) s loc).mp hloc
      exact (bfs_mem_iff v.location_connections v.location_levels
        (levelOrderNum Xp) s loc).mpr
        (Reach_mono _ _ _ _ _ _ (Nat.le_of_lt hlt) hreach)

unseal bfs_loop in
theorem c2_witness :
    "A0" ∈ LEVEL_ORDER.map Prod.fst ∧ "A1" ∈ LEVEL_ORDER.map Prod.fst ∧
    levelOrderNum "A0" < levelOrderNum "A1" ∧
    "forest" ∈ _get_reachable_locations_at_level vChain "A0" none ∧
    "forest" ∈ _get_reachable_locations_at_level vChain "A1" none :=
  ⟨by decide, by decide, by decide, by decide,
    c2_reachability_monotone "A0" "A1" (by decide) (by decide) (by decide)
      vChain none "forest" (by decide)⟩
